import Mathlib

/-!
# Smart-Autoscaler: the decision and reconciliation engine

A shallow embedding of `autoscaler/cmd/autoscaler/main.go`.

* `int32` values are integers in the range `[-2^31, 2^31)`; `+` and `-` wrap
  modulo `2^32` as the Go operators do.
* `float64` values are `F64`: NaN, the two infinities, or a finite value given
  by its sign and its magnitude, a whole number of units of `2^-1074` with at
  most 53 significant bits and below `2^1024`.  Comparisons follow IEEE-754
  (every comparison with NaN is false, the two zeros compare equal); `*`, `+`
  and `-` compute the exact result and round it to nearest, ties to even, with
  gradual underflow and overflow to the infinities.  Each operation is rounded
  on its own (no fused multiply-add).
* `time.Time` is an instant counted in nanoseconds, `time.Duration` a number
  of nanoseconds; `time.Since(t)` is the difference between the clock reading
  and `t`.
* The global variables `lastScale`, `currentReplicas` and `events` are the
  fields of `State`, passed explicitly; `cfg` is passed as an argument.
* What a tick or a handler obtains from outside (clock readings, metrics, the
  answer of the actuator, the parsed request body, the reconcile ticks that run
  while a handler is between two reads) is an argument; the calls it makes are
  returned as a list of `Effect`s.
* The mutex is not part of the state; the lock discipline of each entry point is
  the sequence of its `Access` steps in program order.
-/

set_option exponentiation.threshold 10000
set_option maxRecDepth 20000

namespace Autoscaler

/-! ## Machine integers -/

/-- Two's-complement wrap of an integer into the `int32` range. -/
def wrap32 (x : Int) : Int := (x + 2147483648) % 4294967296 - 2147483648

/-- Go `int32`. -/
abbrev GoInt32 := { x : Int // -2147483648 ≤ x ∧ x < 2147483648 }

/-- Go `a + b` on `int32`. -/
def GoInt32.add (a b : GoInt32) : GoInt32 :=
  ⟨wrap32 (a.val + b.val), by unfold wrap32; omega⟩

/-- Go `a - b` on `int32`. -/
def GoInt32.sub (a b : GoInt32) : GoInt32 :=
  ⟨wrap32 (a.val - b.val), by unfold wrap32; omega⟩

/-- The `int32` constant `1`. -/
def GoInt32.one : GoInt32 := ⟨1, by decide⟩

/-- Go `a < b` on `int32`. -/
def GoInt32.lt (a b : GoInt32) : Bool := Decidable.decide (a.val < b.val)

/-- Go `a > b` on `int32`. -/
def GoInt32.gt (a b : GoInt32) : Bool := Decidable.decide (b.val < a.val)

/-! ## Floating point -/

/-- One step of the binary search for the leading bit: `p.1` is what is left of
the number, `p.2` the bits already counted. -/
def log2Step (k : Nat) (p : Nat × Nat) : Nat × Nat :=
  if 2 ^ k ≤ p.1 then (p.1 / 2 ^ k, p.2 + k) else p

/-- The position of the leading bit of a number below `2^8192`, by binary search. -/
def bitLog (n : Nat) : Nat :=
  (log2Step 1 (log2Step 2 (log2Step 4 (log2Step 8 (log2Step 16 (log2Step 32 (log2Step 64
    (log2Step 128 (log2Step 256 (log2Step 512 (log2Step 1024 (log2Step 2048
      (log2Step 4096 (n, 0)))))))))))))).2

/-- The position of the leading bit of `n` (`0` for `n = 0`). -/
def log2 (n : Nat) : Nat := if n < 2 ^ 8192 then bitLog n else Nat.log2 n

/-- The number of bits of `a` beyond the 53 bits of a float64 significand. -/
def excess (a : Nat) : Nat := log2 a - 52

/-- The quotient `a / 2^d` rounded to nearest, ties to even. -/
def roundDiv (a d : Nat) : Nat :=
  if 2 ^ d < 2 * (a % 2 ^ d) ∨ (2 * (a % 2 ^ d) = 2 ^ d ∧ (a / 2 ^ d) % 2 = 1) then
    a / 2 ^ d + 1
  else a / 2 ^ d

/-- The number of low bits of `a` that a float64 cannot keep, when `a` counts
units of `2^-(1074+s)`: at least `s`, and all beyond 53 significant bits. -/
def dropBits (a s : Nat) : Nat := if s ≤ excess a then excess a else s

/-- Rounding to nearest, ties to even, of the magnitude `a / 2^s` (in units of
`2^-1074`) to 53 significant bits; the result counts units of `2^-1074`. -/
def roundMag (a s : Nat) : Nat := roundDiv a (dropBits a s) * 2 ^ (dropBits a s - s)

/-- Whether `a`, counted in units of `2^-1074`, is the magnitude of a finite
float64: below `2^1024` and of at most 53 significant bits. -/
def isDouble (a : Nat) : Bool :=
  Decidable.decide (a < 2 ^ 2098) && Decidable.decide (a % 2 ^ excess a = 0)

/-- Go `float64`: NaN, `+Inf`, `-Inf`, or a finite value of sign `neg` and
magnitude `mag` units of `2^-1074` (so `-0` and `+0` are two values). -/
inductive F64 where
  | nan
  | posInf
  | negInf
  | fin (neg : Bool) (mag : Nat) (h : isDouble mag = true)
deriving DecidableEq

/-- The float64 nearest to the magnitude `a / 2^s` units with sign `neg`; a
rounded magnitude of `2^1024` or more overflows to the infinity of that sign. -/
def F64.round (neg : Bool) (a s : Nat) : F64 :=
  if h : isDouble (roundMag a s) = true then .fin neg (roundMag a s) h
  else if neg then .negInf else .posInf

/-- The integer that a sign and a magnitude stand for. -/
def signed (neg : Bool) (mag : Nat) : Int := if neg then -(mag : Int) else (mag : Int)

/-- The float64 of an integer constant. -/
def F64.ofInt (k : Int) : F64 :=
  F64.round (Decidable.decide (k < 0)) (k.natAbs * 2 ^ 1074) 0

/-- Go `a < b` on `float64`: false as soon as one side is NaN. -/
def F64.lt : F64 → F64 → Bool
  | .fin s1 a1 _, .fin s2 a2 _ => Decidable.decide (signed s1 a1 < signed s2 a2)
  | .fin _ _ _, .posInf => true
  | .negInf, .fin _ _ _ => true
  | .negInf, .posInf => true
  | _, _ => false

/-- Go `a > b` on `float64`. -/
def F64.gt (a b : F64) : Bool := F64.lt b a

/-- Go `a <= b` on `float64`: false as soon as one side is NaN. -/
def F64.le : F64 → F64 → Bool
  | .nan, _ => false
  | _, .nan => false
  | .fin s1 a1 _, .fin s2 a2 _ => Decidable.decide (signed s1 a1 ≤ signed s2 a2)
  | .negInf, _ => true
  | _, .posInf => true
  | _, _ => false

/-- Go `a * b` on `float64`: the exact product rounded to nearest; `Inf * 0` is
NaN. -/
def F64.mul : F64 → F64 → F64
  | .nan, _ => .nan
  | _, .nan => .nan
  | .fin s1 a1 _, .fin s2 a2 _ => F64.round (s1 != s2) (a1 * a2) 1074
  | .fin s a _, .posInf => if a = 0 then .nan else if s then .negInf else .posInf
  | .fin s a _, .negInf => if a = 0 then .nan else if s then .posInf else .negInf
  | .posInf, .fin s a _ => if a = 0 then .nan else if s then .negInf else .posInf
  | .negInf, .fin s a _ => if a = 0 then .nan else if s then .posInf else .negInf
  | .posInf, .posInf => .posInf
  | .posInf, .negInf => .negInf
  | .negInf, .posInf => .negInf
  | .negInf, .negInf => .posInf

/-- The float64 of the exact sum or difference `t` of two finite values; an
exact zero takes the sign `zeroNeg`. -/
def F64.ofExact (t : Int) (zeroNeg : Bool) : F64 :=
  F64.round (if t = 0 then zeroNeg else Decidable.decide (t < 0)) t.natAbs 0

/-- Go `a + b` on `float64`: the exact sum rounded to nearest; `Inf + (-Inf)` is
NaN; a zero sum is `-0` only for `(-0) + (-0)`. -/
def F64.add : F64 → F64 → F64
  | .nan, _ => .nan
  | _, .nan => .nan
  | .fin s1 a1 _, .fin s2 a2 _ => F64.ofExact (signed s1 a1 + signed s2 a2) (s1 && s2)
  | .fin _ _ _, .posInf => .posInf
  | .fin _ _ _, .negInf => .negInf
  | .posInf, .fin _ _ _ => .posInf
  | .negInf, .fin _ _ _ => .negInf
  | .posInf, .posInf => .posInf
  | .negInf, .negInf => .negInf
  | .posInf, .negInf => .nan
  | .negInf, .posInf => .nan

/-- Go `a - b` on `float64`: the exact difference rounded to nearest; `Inf - Inf`
is NaN; a zero difference is `-0` only for `(-0) - (+0)`. -/
def F64.sub : F64 → F64 → F64
  | .nan, _ => .nan
  | _, .nan => .nan
  | .fin s1 a1 _, .fin s2 a2 _ => F64.ofExact (signed s1 a1 - signed s2 a2) (s1 && !s2)
  | .fin _ _ _, .posInf => .negInf
  | .fin _ _ _, .negInf => .posInf
  | .posInf, .fin _ _ _ => .posInf
  | .negInf, .fin _ _ _ => .negInf
  | .posInf, .posInf => .nan
  | .negInf, .negInf => .nan
  | .posInf, .negInf => .posInf
  | .negInf, .posInf => .negInf

/-- The literal `0.5`. -/
def F64.half : F64 := .fin false (2 ^ 1073) (by decide)

/-- The literal `0`. -/
def F64.zero : F64 := .fin false 0 (by decide)

/-- The literal `0.8`: the float64 nearest to it, `3602879701896397 * 2^-52`. -/
def F64.point8 : F64 := .fin false (3602879701896397 * 2 ^ 1022) (by decide)

/-- Go `time.Time`: an instant, in nanoseconds. -/
abbrev GoTime := Int

/-- Go `time.Duration`: a number of nanoseconds. -/
abbrev Duration := Int

/-- The struct `MetricsSnapshot`. -/
structure MetricsSnapshot where
  CPU : F64
  Mem : F64
  P95 : F64
  At : GoTime
deriving DecidableEq

/-- The struct `Decision`. -/
structure Decision where
  Time : GoTime
  Action : String
  From : GoInt32
  To : GoInt32
  Reason : String
  Threshold : String
deriving DecidableEq

/-- The struct `Config`. -/
structure Config where
  Namespace : String
  Deployment : String
  MinReplicas : GoInt32
  MaxReplicas : GoInt32
  CPUThreshold : F64
  MemThreshold : F64
  P95Threshold : F64
  Cooldown : Duration
deriving DecidableEq

/-! ## The decision rule -/

/-- The function `decide` of `main.go`. -/
def decide (replica : GoInt32) (m : MetricsSnapshot) (c : Config) : GoInt32 × String :=
  let up := F64.gt m.CPU c.CPUThreshold || F64.gt m.Mem c.MemThreshold
    || F64.gt m.P95 c.P95Threshold
  let down := F64.lt m.CPU (F64.mul c.CPUThreshold F64.half)
    && F64.lt m.Mem (F64.mul c.MemThreshold F64.half)
    && F64.lt m.P95 (F64.mul c.P95Threshold F64.half)
  if up && GoInt32.lt replica c.MaxReplicas then
    (GoInt32.add replica GoInt32.one, "Any(metric)>threshold")
  else if down && GoInt32.gt replica c.MinReplicas then
    (GoInt32.sub replica GoInt32.one, "All(metric)<half-threshold")
  else
    (replica, "Hold")

/-- The metric part of the scale-up test (`up` in `decide`). -/
def upCond (m : MetricsSnapshot) (c : Config) : Bool :=
  F64.gt m.CPU c.CPUThreshold || F64.gt m.Mem c.MemThreshold
    || F64.gt m.P95 c.P95Threshold

/-- The metric part of the scale-down test (`down` in `decide`). -/
def downCond (m : MetricsSnapshot) (c : Config) : Bool :=
  F64.lt m.CPU (F64.mul c.CPUThreshold F64.half)
    && F64.lt m.Mem (F64.mul c.MemThreshold F64.half)
    && F64.lt m.P95 (F64.mul c.P95Threshold F64.half)

/-! ## The reconcile tick -/

/-- The global variables `lastScale`, `currentReplicas` and `events`. -/
structure State where
  lastScale : GoTime
  currentReplicas : GoInt32
  events : List Decision
deriving DecidableEq

/-- What one run of `reconcile` obtains from outside the program, in the order
in which it asks for it. -/
structure TickEnv where
  /-- The clock reading taken by `time.Since(lastScale)`. -/
  sinceNow : GoTime
  /-- The snapshot returned by `fetchMetrics()`. -/
  metrics : MetricsSnapshot
  /-- The result of `scaleTo(ctx, n)`: `none` for `nil`, otherwise the error text. -/
  scaleErr : GoInt32 → Option String
  /-- The clock reading `time.Now()` assigned to `lastScale`. -/
  scaleNow : GoTime
  /-- The clock reading `time.Now()` stored in the field `Time` of the `Decision`. -/
  eventNow : GoTime
  /-- The library function `strconv.FormatFloat(x, 'f', 0, 64)`. -/
  formatFloat : F64 → String

/-- What a run of `reconcile` does to the outside: the calls it makes. -/
inductive Effect where
  | fetchMetrics
  | scaleTo (n : GoInt32)
  | logPrintf (msg : String)
deriving DecidableEq

/-- The outcome of one run of `reconcile`: the globals afterwards and the calls
made, in order. -/
structure TickResult where
  state : State
  effects : List Effect
deriving DecidableEq

/-- The function `thresholdsString` of `main.go`. -/
def thresholdsString (formatFloat : F64 → String) (c : Config) : String :=
  "CPU>" ++ formatFloat c.CPUThreshold ++ ",Mem>" ++ formatFloat c.MemThreshold
    ++ ",P95>" ++ formatFloat c.P95Threshold

/-- The last two statements of `reconcile`: `events = append(events, d)` followed by
`if len(events) > 500 { events = events[len(events)-500:] }`. -/
def appendEvent (events : List Decision) (d : Decision) : List Decision :=
  let events := events ++ [d]
  if events.length > 500 then events.drop (events.length - 500) else events

/-- The function `reconcile` of `main.go` (the mutex is held for the whole body and
is not part of the model). -/
def reconcile (cfg : Config) (env : TickEnv) (s : State) : TickResult :=
  if env.sinceNow - s.lastScale < cfg.Cooldown then
    { state := s, effects := [] }
  else
    let m := env.metrics
    let next := (decide s.currentReplicas m cfg).1
    let why := (decide s.currentReplicas m cfg).2
    if next ≠ s.currentReplicas then
      match env.scaleErr next with
      | some err =>
        { state := s,
          effects := [.fetchMetrics, .scaleTo next, .logPrintf ("scale error: " ++ err)] }
      | none =>
        let s1 : State := { s with lastScale := env.scaleNow, currentReplicas := next }
        let d : Decision :=
          { Time := env.eventNow, Action := "scale", From := s1.currentReplicas, To := next,
            Reason := why, Threshold := thresholdsString env.formatFloat cfg }
        { state := { s1 with events := appendEvent s1.events d },
          effects := [.fetchMetrics, .scaleTo next] }
    else
      let d : Decision :=
        { Time := env.eventNow, Action := "hold", From := s.currentReplicas, To := next,
          Reason := why, Threshold := thresholdsString env.formatFloat cfg }
      { state := { s with events := appendEvent s.events d },
        effects := [.fetchMetrics] }

/-! ## Calls of `decide` in a state of the globals -/

/-- A call of `decide` while the globals are `g`, statement by statement: the two
local variables, then the three `return`s; the result comes with the globals
after the call.  No statement of the body names a global variable. -/
def decideCall (g : State) (replica : GoInt32) (m : MetricsSnapshot) (c : Config) :
    (GoInt32 × String) × State :=
  let up := F64.gt m.CPU c.CPUThreshold || F64.gt m.Mem c.MemThreshold
    || F64.gt m.P95 c.P95Threshold
  let down := F64.lt m.CPU (F64.mul c.CPUThreshold F64.half)
    && F64.lt m.Mem (F64.mul c.MemThreshold F64.half)
    && F64.lt m.P95 (F64.mul c.P95Threshold F64.half)
  if up && GoInt32.lt replica c.MaxReplicas then
    ((GoInt32.add replica GoInt32.one, "Any(metric)>threshold"), g)
  else if down && GoInt32.gt replica c.MinReplicas then
    ((GoInt32.sub replica GoInt32.one, "All(metric)<half-threshold"), g)
  else
    ((replica, "Hold"), g)

/-! ## Scenarios -/

/-- The configuration of the scenarios: thresholds 500/512/400, min 1, max 10,
cooldown 60s. -/
def cfg0 : Config :=
  { Namespace := "smart-autoscaler", Deployment := "sample-app",
    MinReplicas := ⟨1, by decide⟩, MaxReplicas := ⟨10, by decide⟩,
    CPUThreshold := F64.ofInt 500, MemThreshold := F64.ofInt 512,
    P95Threshold := F64.ofInt 400, Cooldown := 60000000000 }

/-- A configuration with negative thresholds `-100`, under which one snapshot can
satisfy the scale-up and the scale-down condition at once. -/
def cfgNeg : Config :=
  { cfg0 with CPUThreshold := F64.ofInt (-100), MemThreshold := F64.ofInt (-100),
              P95Threshold := F64.ofInt (-100) }

/-- A snapshot with whole-number metrics taken at instant `0`. -/
def snap (cpu mem p95 : Int) : MetricsSnapshot :=
  { CPU := F64.ofInt cpu, Mem := F64.ofInt mem, P95 := F64.ofInt p95, At := 0 }

/-- An environment for the scenarios: the gate reads the clock at `now`, metrics
are `m`, the actuator answers `err`, later clock readings are `now + 1` and
`now + 2`. -/
def env0 (now : GoTime) (m : MetricsSnapshot) (err : Option String) : TickEnv :=
  { sinceNow := now, metrics := m, scaleErr := fun _ => err, scaleNow := now + 1,
    eventNow := now + 2, formatFloat := fun _ => "" }

/-! ## Startup and runs -/

/-- The initialisation of the globals in `main`.  `dep` is the result of the
`Get` of the deployment: an error, or the deployment with its optional field
`Spec.Replicas`.  `lastScale` and `events` keep their zero values (instants are
counted from the zero `time.Time`). -/
def startup (cfg : Config) (dep : Except String (Option GoInt32)) : State :=
  match dep with
  | .ok (some n) => { lastScale := 0, currentReplicas := n, events := [] }
  | _ => { lastScale := 0, currentReplicas := cfg.MinReplicas, events := [] }

/-- The globals after the reconcile ticks of the background loop, one per element
of `envs`, in order. -/
def runTicks (cfg : Config) (envs : List TickEnv) (s : State) : State :=
  envs.foldl (fun st env => (reconcile cfg env st).state) s

/-- The band `MinReplicas <= currentReplicas <= MaxReplicas`. -/
def inBand (cfg : Config) (s : State) : Prop :=
  cfg.MinReplicas.val ≤ s.currentReplicas.val ∧ s.currentReplicas.val ≤ cfg.MaxReplicas.val

/-- The number of actuator calls among the calls made. -/
def actuatorCalls (effects : List Effect) : Nat :=
  (effects.filter (fun e => match e with
    | .scaleTo _ => true
    | _ => false)).length

/-- The number of actuator calls among the calls made that the actuator of `env`
answers without an error. -/
def successfulCalls (env : TickEnv) (effects : List Effect) : Nat :=
  (effects.filter (fun e => match e with
    | .scaleTo n => (env.scaleErr n).isNone
    | _ => false)).length

/-- The number of `Decision`s with action `"scale"` in a log. -/
def scaleCount (events : List Decision) : Nat :=
  (events.filter (fun d => d.Action == "scale")).length

/-- The audit entry number `i` of the scenarios: a hold at 3 replicas recorded at
instant `i`. -/
def numbered (i : Nat) : Decision :=
  { Time := i, Action := "hold", From := ⟨3, by decide⟩, To := ⟨3, by decide⟩,
    Reason := "Hold", Threshold := "" }

/-- The audit entries number `start`, `start + 1`, ..., `start + n - 1`. -/
def numberedFrom (start n : Nat) : List Decision :=
  (List.range n).map (fun i => numbered (start + i))

/-! ## The predictor -/

/-- The function `max` of `main.go`. -/
def max (a b : F64) : F64 := if F64.gt a b then a else b

/-- The function `synthesizeMetrics` of `main.go`; `now` is the clock reading
`time.Now()` stored in the field `At`. -/
def synthesizeMetrics (rps : F64) (now : GoTime) : MetricsSnapshot :=
  let cpu := F64.mul (F64.ofInt 2) rps
  let mem := F64.mul (F64.ofInt 1) rps
  let p95 := F64.add (F64.ofInt 100)
    (F64.mul (max F64.zero (F64.sub rps (F64.ofInt 200))) F64.point8)
  { CPU := cpu, Mem := mem, P95 := p95, At := now }

/-- The shared variables of the region that `mu` protects. -/
inductive SharedVar where
  | lastScale
  | currentReplicas
  | events
deriving DecidableEq

/-- A step of an entry point that concerns the region: `mu.Lock()`,
`mu.Unlock()`, a read or a write of a shared variable. -/
inductive Access where
  | lock
  | unlock
  | read (v : SharedVar)
  | write (v : SharedVar)
deriving DecidableEq

/-- Whether every read and write of a sequence of steps is made while the mutex
is held; `held` says whether it is held at the start. -/
def guardedFrom (held : Bool) : List Access → Bool
  | [] => true
  | .lock :: rest => guardedFrom true rest
  | .unlock :: rest => guardedFrom false rest
  | .read _ :: rest => held && guardedFrom held rest
  | .write _ :: rest => held && guardedFrom held rest

/-- Whether every access of an entry point, which starts without the mutex, is
made while holding it. -/
def guarded (steps : List Access) : Bool := guardedFrom false steps

/-- The steps of the last two statements of `reconcile` on the log `events`. -/
def appendEventAccess (events : List Decision) : List Access :=
  [.read .currentReplicas, .read .events, .write .events, .read .events]
    ++ (if (events.length + 1) > 500 then [.read .events, .write .events] else [])

/-- The steps of `reconcile` in program order, on the path the tick takes:
`mu.Lock()` first, `mu.Unlock()` (deferred) at each return. -/
def reconcileAccess (cfg : Config) (env : TickEnv) (s : State) : List Access :=
  if env.sinceNow - s.lastScale < cfg.Cooldown then
    [.lock, .read .lastScale, .unlock]
  else
    let next := (decide s.currentReplicas env.metrics cfg).1
    if next ≠ s.currentReplicas then
      match env.scaleErr next with
      | some _ =>
        [.lock, .read .lastScale, .read .currentReplicas, .read .currentReplicas, .unlock]
      | none =>
        [.lock, .read .lastScale, .read .currentReplicas, .read .currentReplicas,
          .write .lastScale, .write .currentReplicas]
          ++ appendEventAccess s.events ++ [.unlock]
    else
      [.lock, .read .lastScale, .read .currentReplicas, .read .currentReplicas]
        ++ appendEventAccess s.events ++ [.unlock]

/-- The steps of the `/events` handler, `c.JSON(200, events)`: it never calls
`mu.Lock()`. -/
def eventsHandlerAccess : List Access := [.read .events]

/-- The steps of the `/predict` handler: none when the body does not parse,
otherwise `currentReplicas` is read for `decide` and for the field `from`; it
never calls `mu.Lock()`. -/
def predictHandlerAccess (body : Option F64) : List Access :=
  match body with
  | none => []
  | some _ => [.read .currentReplicas, .read .currentReplicas]

/-! ## Facts about the arithmetic of the model -/

theorem wrap32_of_range (x : Int) (h1 : -2147483648 ≤ x) (h2 : x < 2147483648) :
    wrap32 x = x := by
  unfold wrap32; omega

theorem GoInt32.lt_iff (a b : GoInt32) : GoInt32.lt a b = true ↔ a.val < b.val := by
  simp [GoInt32.lt]

theorem GoInt32.gt_iff (a b : GoInt32) : GoInt32.gt a b = true ↔ b.val < a.val := by
  simp [GoInt32.gt]

theorem GoInt32.add_one_val (a b : GoInt32) (h : a.val < b.val) :
    (GoInt32.add a GoInt32.one).val = a.val + 1 := by
  have ha := a.property
  have hb := b.property
  simp only [GoInt32.add, GoInt32.one]
  exact wrap32_of_range _ (by omega) (by omega)

theorem GoInt32.sub_one_val (a b : GoInt32) (h : b.val < a.val) :
    (GoInt32.sub a GoInt32.one).val = a.val - 1 := by
  have ha := a.property
  have hb := b.property
  simp only [GoInt32.sub, GoInt32.one]
  exact wrap32_of_range _ (by omega) (by omega)

/-! ## Facts about rounding -/

theorem log2Step_inv (k n0 : Nat) (p : Nat × Nat)
    (h1 : p.1 = n0 / 2 ^ p.2) (h2 : p.1 < 2 ^ (2 * k)) (h3 : 1 ≤ p.1) :
    (log2Step k p).1 = n0 / 2 ^ (log2Step k p).2 ∧ (log2Step k p).1 < 2 ^ k
      ∧ 1 ≤ (log2Step k p).1 := by
  unfold log2Step
  have hpos : 0 < 2 ^ k := Nat.two_pow_pos _
  split
  · rename_i h
    refine ⟨?_, ?_, ?_⟩
    · show p.1 / 2 ^ k = n0 / 2 ^ (p.2 + k)
      rw [h1, Nat.div_div_eq_div_mul, ← pow_add]
    · show p.1 / 2 ^ k < 2 ^ k
      rw [Nat.div_lt_iff_lt_mul hpos]
      calc p.1 < 2 ^ (2 * k) := h2
        _ = 2 ^ k * 2 ^ k := by rw [two_mul, pow_add]
    · show 1 ≤ p.1 / 2 ^ k
      exact Nat.div_pos h hpos
  · rename_i h
    exact ⟨h1, Nat.lt_of_not_le h, h3⟩

theorem bitLog_spec (n : Nat) (h0 : 1 ≤ n) (hn : n < 2 ^ 8192) :
    2 ^ bitLog n ≤ n ∧ n < 2 ^ (bitLog n + 1) := by
  have s0 : ((n, 0) : Nat × Nat).1 = n / 2 ^ ((n, 0) : Nat × Nat).2 := by simp
  obtain ⟨a1, b1, c1⟩ := log2Step_inv 4096 n (n, 0) s0 hn h0
  obtain ⟨a2, b2, c2⟩ := log2Step_inv 2048 n _ a1 b1 c1
  obtain ⟨a3, b3, c3⟩ := log2Step_inv 1024 n _ a2 b2 c2
  obtain ⟨a4, b4, c4⟩ := log2Step_inv 512 n _ a3 b3 c3
  obtain ⟨a5, b5, c5⟩ := log2Step_inv 256 n _ a4 b4 c4
  obtain ⟨a6, b6, c6⟩ := log2Step_inv 128 n _ a5 b5 c5
  obtain ⟨a7, b7, c7⟩ := log2Step_inv 64 n _ a6 b6 c6
  obtain ⟨a8, b8, c8⟩ := log2Step_inv 32 n _ a7 b7 c7
  obtain ⟨a9, b9, c9⟩ := log2Step_inv 16 n _ a8 b8 c8
  obtain ⟨a10, b10, c10⟩ := log2Step_inv 8 n _ a9 b9 c9
  obtain ⟨a11, b11, c11⟩ := log2Step_inv 4 n _ a10 b10 c10
  obtain ⟨a12, b12, c12⟩ := log2Step_inv 2 n _ a11 b11 c11
  obtain ⟨a13, b13, c13⟩ := log2Step_inv 1 n _ a12 b12 c12
  have hq : n / 2 ^ bitLog n = 1 := by
    have : (log2Step 1 (log2Step 2 (log2Step 4 (log2Step 8 (log2Step 16 (log2Step 32
      (log2Step 64 (log2Step 128 (log2Step 256 (log2Step 512 (log2Step 1024 (log2Step 2048
        (log2Step 4096 (n, 0)))))))))))))).1 = 1 := by
      have := b13
      simp only [pow_one] at this
      omega
    rw [← this]
    exact a13.symm
  have hpos : 0 < 2 ^ bitLog n := Nat.two_pow_pos _
  have hdm := Nat.div_add_mod n (2 ^ bitLog n)
  have hm := Nat.mod_lt n hpos
  rw [hq] at hdm
  rw [pow_succ]
  generalize 2 ^ bitLog n = X at *
  omega

theorem log2_eq (n : Nat) : log2 n = Nat.log2 n := by
  unfold log2
  split
  · rename_i hn
    by_cases h0 : n = 0
    · subst h0
      rw [Nat.log2_zero]
      decide
    · have h1 : 1 ≤ n := Nat.one_le_iff_ne_zero.mpr h0
      obtain ⟨ha, hb⟩ := bitLog_spec n h1 hn
      have h2 : bitLog n ≤ Nat.log2 n := (Nat.le_log2 h0).mpr ha
      have h3 : Nat.log2 n < bitLog n + 1 := (Nat.log2_lt h0).mpr hb
      omega
  · rfl

theorem lt_pow_excess (a : Nat) : a < 2 ^ (53 + excess a) := by
  unfold excess
  rw [log2_eq]
  exact lt_of_lt_of_le Nat.lt_log2_self (Nat.pow_le_pow_right (by norm_num) (by omega))

theorem pow_le_of_excess_pos (a : Nat) (h : 0 < excess a) : 2 ^ (52 + excess a) ≤ a := by
  unfold excess at h ⊢
  rw [log2_eq] at h ⊢
  have h0 : a ≠ 0 := by
    rintro rfl
    rw [Nat.log2_zero] at h
    omega
  have h1 : 52 + (Nat.log2 a - 52) = Nat.log2 a := by omega
  rw [h1]
  exact Nat.log2_self_le h0

theorem excess_mono (a b : Nat) (h : a ≤ b) : excess a ≤ excess b := by
  by_contra hc
  have hlt : excess b < excess a := Nat.lt_of_not_le hc
  have h1 := pow_le_of_excess_pos a (by omega)
  have h2 := lt_pow_excess b
  have h3 : 2 ^ (53 + excess b) ≤ 2 ^ (52 + excess a) :=
    Nat.pow_le_pow_right (by norm_num) (by omega)
  omega

theorem le_dropBits (a s : Nat) : s ≤ dropBits a s := by
  unfold dropBits
  split <;> omega

theorem excess_le_dropBits (a s : Nat) : excess a ≤ dropBits a s := by
  unfold dropBits
  split <;> omega

theorem dropBits_mono (a b s : Nat) (h : a ≤ b) : dropBits a s ≤ dropBits b s := by
  have := excess_mono a b h
  unfold dropBits
  split <;> split <;> omega

theorem roundDiv_ge (a d : Nat) : a / 2 ^ d ≤ roundDiv a d := by
  unfold roundDiv
  split <;> omega

theorem roundDiv_le (a d : Nat) : roundDiv a d ≤ a / 2 ^ d + 1 := by
  unfold roundDiv
  split <;> omega

theorem roundDiv_mono (a b d : Nat) (h : a ≤ b) : roundDiv a d ≤ roundDiv b d := by
  have hq : a / 2 ^ d ≤ b / 2 ^ d := Nat.div_le_div_right h
  rcases Nat.lt_or_ge (a / 2 ^ d) (b / 2 ^ d) with hlt | hge
  · exact le_trans (roundDiv_le a d) (le_trans hlt (roundDiv_ge b d))
  · have heq : a / 2 ^ d = b / 2 ^ d := le_antisymm hq hge
    have ha := Nat.div_add_mod a (2 ^ d)
    have hb := Nat.div_add_mod b (2 ^ d)
    rw [heq] at ha
    have hr : a % 2 ^ d ≤ b % 2 ^ d := by
      generalize 2 ^ d * (b / 2 ^ d) = t at ha hb
      omega
    unfold roundDiv
    rw [heq]
    generalize 2 ^ d = X at *
    generalize a % X = r1 at *
    generalize b % X = r2 at *
    split <;> split <;> omega

theorem div_dropBits_lt (a s : Nat) : a / 2 ^ dropBits a s < 2 ^ 53 := by
  rw [Nat.div_lt_iff_lt_mul (Nat.two_pow_pos _), ← pow_add]
  exact lt_of_lt_of_le (lt_pow_excess a)
    (Nat.pow_le_pow_right (by norm_num) (by have := excess_le_dropBits a s; omega))

theorem roundDiv_dropBits_le (a s : Nat) : roundDiv a (dropBits a s) ≤ 2 ^ 53 := by
  have h1 := roundDiv_le a (dropBits a s)
  have h2 := div_dropBits_lt a s
  omega

/-- Rounding is monotone. -/
theorem roundMag_mono (a b s : Nat) (h : a ≤ b) : roundMag a s ≤ roundMag b s := by
  unfold roundMag
  have hd := dropBits_mono a b s h
  rcases Nat.lt_or_ge (dropBits a s) (dropBits b s) with hlt | hge
  · have hsa := le_dropBits a s
    have hex : dropBits b s = excess b := by
      unfold dropBits at hlt ⊢
      split
      · rfl
      · rename_i hns
        rw [if_neg hns] at hlt
        have := le_dropBits a s
        unfold dropBits at this
        omega
    have hpos : 0 < excess b := by omega
    have hb := pow_le_of_excess_pos b hpos
    have hqb : 2 ^ 52 ≤ b / 2 ^ dropBits b s := by
      rw [Nat.le_div_iff_mul_le (Nat.two_pow_pos _), ← pow_add, hex]
      exact hb
    have h1 : roundDiv a (dropBits a s) * 2 ^ (dropBits a s - s)
        ≤ 2 ^ 53 * 2 ^ (dropBits a s - s) :=
      Nat.mul_le_mul_right _ (roundDiv_dropBits_le a s)
    have h2 : 2 ^ 53 * 2 ^ (dropBits a s - s) ≤ 2 ^ 52 * 2 ^ (dropBits b s - s) := by
      rw [← pow_add, ← pow_add]
      exact Nat.pow_le_pow_right (by norm_num) (by omega)
    have h3 : 2 ^ 52 * 2 ^ (dropBits b s - s)
        ≤ roundDiv b (dropBits b s) * 2 ^ (dropBits b s - s) :=
      Nat.mul_le_mul_right _ (le_trans hqb (roundDiv_ge b _))
    exact le_trans h1 (le_trans h2 h3)
  · have heq : dropBits a s = dropBits b s := le_antisymm hd hge
    rw [heq]
    exact Nat.mul_le_mul_right _ (roundDiv_mono a b _ h)

/-- The rounded magnitude has at most 53 significant bits. -/
theorem roundMag_divisible (a s : Nat) : roundMag a s % 2 ^ excess (roundMag a s) = 0 := by
  apply Nat.mod_eq_zero_of_dvd
  have hr := roundDiv_dropBits_le a s
  have hs := le_dropBits a s
  have hm : roundMag a s = roundDiv a (dropBits a s) * 2 ^ (dropBits a s - s) := rfl
  rcases Nat.lt_or_ge (dropBits a s - s) (excess (roundMag a s)) with hlt | hge
  · have hpos : 0 < excess (roundMag a s) := by omega
    have h1 := pow_le_of_excess_pos _ hpos
    have h2 : roundMag a s ≤ 2 ^ (53 + (dropBits a s - s)) := by
      rw [hm, pow_add]
      exact Nat.mul_le_mul_right _ hr
    have h3 : 52 + excess (roundMag a s) ≤ 53 + (dropBits a s - s) :=
      (Nat.pow_le_pow_iff_right (by norm_num)).mp (le_trans h1 h2)
    have h4 : excess (roundMag a s) = dropBits a s - s + 1 := by omega
    have h5 : roundMag a s = 2 ^ (53 + (dropBits a s - s)) := by
      apply le_antisymm h2
      have : 52 + excess (roundMag a s) = 53 + (dropBits a s - s) := by omega
      rw [← this]
      exact h1
    rw [h4]
    conv_rhs => rw [h5]
    exact Nat.pow_dvd_pow 2 (by omega)
  · rw [hm]
    exact Dvd.dvd.mul_left (Nat.pow_dvd_pow 2 hge) _

theorem log2_mul_pow (a s : Nat) (h : a ≠ 0) : Nat.log2 (a * 2 ^ s) = Nat.log2 a + s := by
  have hne : a * 2 ^ s ≠ 0 := Nat.mul_ne_zero h (Nat.two_pow_pos s).ne'
  have h1 : Nat.log2 a + s ≤ Nat.log2 (a * 2 ^ s) := by
    rw [Nat.le_log2 hne, pow_add]
    exact Nat.mul_le_mul_right _ (Nat.log2_self_le h)
  have h2 : Nat.log2 (a * 2 ^ s) < Nat.log2 a + s + 1 := by
    rw [Nat.log2_lt hne]
    have : a < 2 ^ (Nat.log2 a + 1) := Nat.lt_log2_self
    calc a * 2 ^ s < 2 ^ (Nat.log2 a + 1) * 2 ^ s :=
          Nat.mul_lt_mul_of_pos_right this (Nat.two_pow_pos s)
      _ = 2 ^ (Nat.log2 a + s + 1) := by rw [← pow_add]; congr 1; omega
  omega

/-- A magnitude with at most 53 significant bits is its own rounding. -/
theorem roundMag_exact (a s : Nat) (h : a % 2 ^ excess a = 0) : roundMag (a * 2 ^ s) s = a := by
  by_cases h0 : a = 0
  · subst h0
    simp [roundMag, roundDiv]
  · have hd : dropBits (a * 2 ^ s) s = s + excess a := by
      unfold dropBits excess
      rw [log2_eq, log2_eq, log2_mul_pow a s h0]
      split <;> omega
    obtain ⟨k, hk⟩ := Nat.dvd_of_mod_eq_zero h
    have ha : a * 2 ^ s = k * 2 ^ (s + excess a) := by
      rw [pow_add]
      conv_lhs => rw [hk]
      ring
    unfold roundMag
    rw [hd]
    have hq : roundDiv (a * 2 ^ s) (s + excess a) = k := by
      unfold roundDiv
      rw [ha, Nat.mul_mod_left, Nat.mul_div_cancel _ (Nat.two_pow_pos _)]
      have := Nat.two_pow_pos (s + excess a)
      rw [if_neg (by omega)]
    rw [hq, Nat.add_sub_cancel_left]
    conv_rhs => rw [hk]
    ring

theorem isDouble_iff (a : Nat) : isDouble a = true ↔ a < 2 ^ 2098 ∧ a % 2 ^ excess a = 0 := by
  simp [isDouble]

theorem roundMag_zero (s : Nat) : roundMag 0 s = 0 := by
  simp [roundMag, roundDiv]

/-- The two outcomes of `F64.round`: the rounded magnitude, or an overflow. -/
theorem F64.round_cases (neg : Bool) (a s : Nat) :
    (∃ h, F64.round neg a s = .fin neg (roundMag a s) h)
    ∨ (isDouble (roundMag a s) = false
        ∧ F64.round neg a s = if neg then .negInf else .posInf) := by
  unfold F64.round
  by_cases h : isDouble (roundMag a s) = true
  · left
    exact ⟨h, dif_pos h⟩
  · right
    refine ⟨by simpa using h, dif_neg h⟩

/-- A rounded magnitude below a float64 magnitude is one. -/
theorem isDouble_roundMag_of_le (a s b : Nat) (hb : isDouble b = true)
    (h : roundMag a s ≤ b) : isDouble (roundMag a s) = true := by
  rw [isDouble_iff] at hb ⊢
  exact ⟨lt_of_le_of_lt h hb.1, roundMag_divisible a s⟩

/-- A float64 magnitude, scaled to the finer unit, rounds to itself. -/
theorem F64.round_exact (neg : Bool) (a s : Nat) (h : isDouble a = true) :
    F64.round neg (a * 2 ^ s) s = .fin neg a h := by
  have he := roundMag_exact a s ((isDouble_iff a).mp h).2
  unfold F64.round
  have h2 : isDouble (roundMag (a * 2 ^ s) s) = true := by rw [he]; exact h
  rw [dif_pos h2]
  congr 1

/-- Rounding keeps the order of the exact values. -/
theorem F64.round_le_round (n1 n2 : Bool) (a b s : Nat) (h : signed n1 a ≤ signed n2 b) :
    F64.le (F64.round n1 a s) (F64.round n2 b s) = true := by
  cases n1 <;> cases n2 <;>
    simp only [signed, Bool.false_eq_true, if_false, if_true] at h
  · have hm := roundMag_mono a b s (by omega)
    rcases F64.round_cases false b s with ⟨h2, e2⟩ | ⟨h2, e2⟩
    · have h1 := isDouble_roundMag_of_le a s _ h2 hm
      rw [e2, F64.round, dif_pos h1]
      simp only [F64.le, signed, Bool.false_eq_true, if_false, decide_eq_true_eq]
      omega
    · rw [e2]
      rcases F64.round_cases false a s with ⟨h1, e1⟩ | ⟨h1, e1⟩ <;> rw [e1] <;> rfl
  · have ha : a = 0 := by omega
    have hb : b = 0 := by omega
    subst ha hb
    have h0 : isDouble (roundMag 0 s) = true := by rw [roundMag_zero]; decide
    rw [F64.round, dif_pos h0, F64.round, dif_pos h0]
    simp only [F64.le, signed, roundMag_zero, Bool.false_eq_true, if_false, if_true,
      decide_eq_true_eq]
    omega
  · rcases F64.round_cases true a s with ⟨h1, e1⟩ | ⟨h1, e1⟩ <;>
      rcases F64.round_cases false b s with ⟨h2, e2⟩ | ⟨h2, e2⟩ <;> rw [e1, e2]
    · simp only [F64.le, signed, Bool.false_eq_true, if_false, if_true, decide_eq_true_eq]
      omega
    · rfl
    · rfl
    · rfl
  · have hm := roundMag_mono b a s (by omega)
    rcases F64.round_cases true a s with ⟨h1, e1⟩ | ⟨h1, e1⟩
    · have h2 := isDouble_roundMag_of_le b s _ h1 hm
      rw [e1, F64.round, dif_pos h2]
      simp only [F64.le, signed, if_true, decide_eq_true_eq]
      omega
    · rw [e1]
      rcases F64.round_cases true b s with ⟨h2, e2⟩ | ⟨h2, e2⟩ <;> rw [e2] <;> rfl

theorem F64.le_negInf_round (n : Bool) (a s : Nat) :
    F64.le .negInf (F64.round n a s) = true := by
  rcases F64.round_cases n a s with ⟨h, e⟩ | ⟨h, e⟩ <;> rw [e]
  · rfl
  · cases n <;> rfl

theorem F64.round_le_posInf (n : Bool) (a s : Nat) :
    F64.le (F64.round n a s) .posInf = true := by
  rcases F64.round_cases n a s with ⟨h, e⟩ | ⟨h, e⟩ <;> rw [e]
  · rfl
  · cases n <;> rfl

theorem signed_mul (s : Bool) (c a : Nat) : signed s (c * a) = (c : Int) * signed s a := by
  cases s <;> simp [signed]

theorem signed_ofExact (t : Int) (z : Bool) :
    signed (if t = 0 then z else Decidable.decide (t < 0)) t.natAbs = t := by
  by_cases h0 : t = 0
  · subst h0
    cases z <;> simp [signed]
  · rw [if_neg h0]
    by_cases hneg : t < 0
    · simp only [signed, hneg, decide_True, if_true]
      omega
    · simp only [signed, hneg, decide_False, Bool.false_eq_true, if_false]
      omega

/-! ## Facts about the float operations -/

theorem F64.mul_comm (a b : F64) : F64.mul a b = F64.mul b a := by
  cases a with
  | nan => cases b <;> rfl
  | posInf => cases b <;> rfl
  | negInf => cases b <;> rfl
  | fin s1 a1 h1 =>
    cases b with
    | nan => rfl
    | posInf => rfl
    | negInf => rfl
    | fin s2 a2 h2 =>
      show F64.round (s1 != s2) (a1 * a2) 1074 = F64.round (s2 != s1) (a2 * a1) 1074
      rw [Nat.mul_comm a1 a2]
      cases s1 <;> cases s2 <;> rfl

theorem F64.lt_irrefl (a : F64) : F64.lt a a = false := by
  cases a <;> simp [F64.lt]

theorem F64.gt_irrefl (a : F64) : F64.gt a a = false := F64.lt_irrefl a

/-- A positive finite value has the sign `+` and a magnitude of at least one unit. -/
theorem F64.pos_fin (s : Bool) (a : Nat) (h : isDouble a = true)
    (ht : F64.gt (.fin s a h) F64.zero = true) : s = false ∧ 0 < a := by
  cases s <;> simp [F64.gt, F64.lt, F64.zero, signed] at ht ⊢
  · omega
  · omega

/-- Half of a positive finite float64 is a finite float64 not above it. -/
theorem F64.mul_half_le (a : Nat) (h : isDouble a = true) :
    ∃ m hm, F64.mul (.fin false a h) F64.half = .fin false m hm ∧ m ≤ a := by
  have hm : roundMag (a * 2 ^ 1073) 1074 ≤ a := by
    have h1 := roundMag_mono (a * 2 ^ 1073) (a * 2 ^ 1074) 1074
      (Nat.mul_le_mul_left a (Nat.pow_le_pow_right (by norm_num) (by norm_num)))
    rw [roundMag_exact a 1074 ((isDouble_iff a).mp h).2] at h1
    exact h1
  have hd := isDouble_roundMag_of_le (a * 2 ^ 1073) 1074 a h hm
  refine ⟨roundMag (a * 2 ^ 1073) 1074, hd, ?_, hm⟩
  show F64.round (false != false) (a * 2 ^ 1073) 1074 = _
  unfold F64.round
  rw [dif_pos hd]
  rfl

/-- Above a positive threshold is never below half of it. -/
theorem F64.not_lt_half_of_gt (x t : F64) (ht : F64.gt t F64.zero = true)
    (hx : F64.gt x t = true) : F64.lt x (F64.mul t F64.half) = false := by
  cases t with
  | nan => simp [F64.gt, F64.lt, F64.zero] at ht
  | negInf => simp [F64.gt, F64.lt, F64.zero] at ht
  | posInf => cases x <;> simp [F64.gt, F64.lt] at hx
  | fin s a h =>
    obtain ⟨hs, ha⟩ := F64.pos_fin s a h ht
    subst hs
    obtain ⟨m, hm, e, hle⟩ := F64.mul_half_le a h
    rw [e]
    cases x with
    | nan => rfl
    | posInf => rfl
    | negInf => simp [F64.gt, F64.lt] at hx
    | fin s2 b hb =>
      simp only [F64.gt, F64.lt, decide_eq_true_eq] at hx
      simp only [F64.lt, decide_eq_false_iff_not]
      simp only [signed, Bool.false_eq_true, if_false] at hx ⊢
      omega

/-- Half of a positive threshold is not above it. -/
theorem F64.half_not_gt (t : F64) (ht : F64.gt t F64.zero = true) :
    F64.gt (F64.mul t F64.half) t = false := by
  cases t with
  | nan => simp [F64.gt, F64.lt, F64.zero] at ht
  | negInf => simp [F64.gt, F64.lt, F64.zero] at ht
  | posInf => simp [F64.gt, F64.lt, F64.mul, F64.half]
  | fin s a h =>
    obtain ⟨hs, ha⟩ := F64.pos_fin s a h ht
    subst hs
    obtain ⟨m, hm, e, hle⟩ := F64.mul_half_le a h
    rw [e]
    simp only [F64.gt, F64.lt, decide_eq_false_iff_not, signed, Bool.false_eq_true, if_false]
    omega

/-- A positive threshold is not below half of itself. -/
theorem F64.not_lt_half_self (t : F64) (ht : F64.gt t F64.zero = true) :
    F64.lt t (F64.mul t F64.half) = false := by
  cases t with
  | nan => simp [F64.gt, F64.lt, F64.zero] at ht
  | negInf => simp [F64.gt, F64.lt, F64.zero] at ht
  | posInf => simp [F64.lt]
  | fin s a h =>
    obtain ⟨hs, ha⟩ := F64.pos_fin s a h ht
    subst hs
    obtain ⟨m, hm, e, hle⟩ := F64.mul_half_le a h
    rw [e]
    simp only [F64.lt, decide_eq_false_iff_not, signed, Bool.false_eq_true, if_false]
    omega

/-- A larger value is above every threshold a smaller one is above. -/
theorem F64.gt_of_le_of_gt (a b t : F64) (hab : F64.le a b = true)
    (h : F64.gt a t = true) : F64.gt b t = true := by
  cases a <;> cases b <;> cases t <;> simp_all [F64.le, F64.gt, F64.lt]
  omega

/-- A smaller value is below every bound a larger one is below. -/
theorem F64.lt_of_le_of_lt (a b t : F64) (hab : F64.le a b = true)
    (h : F64.lt b t = true) : F64.lt a t = true := by
  cases a <;> cases b <;> cases t <;> simp_all [F64.le, F64.gt, F64.lt]
  omega

theorem F64.le_trans (a b c : F64) (h1 : F64.le a b = true) (h2 : F64.le b c = true) :
    F64.le a c = true := by
  cases a <;> cases b <;> cases c <;> simp_all [F64.le]
  omega

theorem F64.ofInt_one : F64.ofInt 1 = .fin false (2 ^ 1074) (by decide) := by decide

/-- Multiplying by the constant `1` changes nothing. -/
theorem F64.one_mul (x : F64) : F64.mul (F64.ofInt 1) x = x := by
  rw [F64.ofInt_one]
  cases x with
  | nan => rfl
  | posInf => rfl
  | negInf => rfl
  | fin s a h =>
    show F64.round (false != s) (2 ^ 1074 * a) 1074 = _
    rw [Nat.mul_comm, F64.round_exact (false != s) a 1074 h]
    cases s <;> rfl

/-- Multiplication by a positive finite constant keeps the order. -/
theorem F64.mul_le_mul_left (c : Nat) (hc : isDouble c = true) (hpos : 0 < c) (a b : F64)
    (h : F64.le a b = true) :
    F64.le (F64.mul (.fin false c hc) a) (F64.mul (.fin false c hc) b) = true := by
  have hc0 : c ≠ 0 := by omega
  cases a with
  | nan => simp [F64.le] at h
  | posInf =>
    cases b with
    | posInf => simp [F64.mul, hc0, F64.le]
    | nan => simp [F64.le] at h
    | negInf => simp [F64.le] at h
    | fin s2 a2 h2 => simp [F64.le] at h
  | negInf =>
    cases b with
    | nan => simp [F64.le] at h
    | posInf => simp [F64.mul, hc0, F64.le]
    | negInf => simp [F64.mul, hc0, F64.le]
    | fin s2 a2 h2 =>
      simp only [F64.mul, hc0, if_false, Bool.false_eq_true]
      exact F64.le_negInf_round _ _ _
  | fin s1 a1 h1 =>
    cases b with
    | nan => simp [F64.le] at h
    | negInf => simp [F64.le] at h
    | posInf =>
      simp only [F64.mul, hc0, if_false, Bool.false_eq_true]
      exact F64.round_le_posInf _ _ _
    | fin s2 a2 h2 =>
      simp only [F64.le, decide_eq_true_eq] at h
      show F64.le (F64.round (false != s1) (c * a1) 1074)
        (F64.round (false != s2) (c * a2) 1074) = true
      apply F64.round_le_round
      rw [signed_mul, signed_mul]
      have e1 : (false != s1) = s1 := by cases s1 <;> rfl
      have e2 : (false != s2) = s2 := by cases s2 <;> rfl
      rw [e1, e2]
      exact Int.mul_le_mul_of_nonneg_left h (by omega)

/-- Adding to a finite constant keeps the order. -/
theorem F64.add_le_add_left (s : Bool) (c : Nat) (hc : isDouble c = true) (a b : F64)
    (h : F64.le a b = true) :
    F64.le (F64.add (.fin s c hc) a) (F64.add (.fin s c hc) b) = true := by
  cases a with
  | nan => simp [F64.le] at h
  | posInf =>
    cases b with
    | posInf => rfl
    | nan => simp [F64.le] at h
    | negInf => simp [F64.le] at h
    | fin s2 a2 h2 => simp [F64.le] at h
  | negInf =>
    cases b with
    | nan => simp [F64.le] at h
    | posInf => rfl
    | negInf => rfl
    | fin s2 a2 h2 => exact F64.le_negInf_round _ _ _
  | fin s1 a1 h1 =>
    cases b with
    | nan => simp [F64.le] at h
    | negInf => simp [F64.le] at h
    | posInf => exact F64.round_le_posInf _ _ _
    | fin s2 a2 h2 =>
      simp only [F64.le, decide_eq_true_eq] at h
      show F64.le (F64.ofExact _ _) (F64.ofExact _ _) = true
      unfold F64.ofExact
      apply F64.round_le_round
      rw [signed_ofExact, signed_ofExact]
      omega

/-- Subtracting a finite constant keeps the order. -/
theorem F64.sub_le_sub_right (s : Bool) (c : Nat) (hc : isDouble c = true) (a b : F64)
    (h : F64.le a b = true) :
    F64.le (F64.sub a (.fin s c hc)) (F64.sub b (.fin s c hc)) = true := by
  cases a with
  | nan => simp [F64.le] at h
  | posInf =>
    cases b with
    | posInf => rfl
    | nan => simp [F64.le] at h
    | negInf => simp [F64.le] at h
    | fin s2 a2 h2 => simp [F64.le] at h
  | negInf =>
    cases b with
    | nan => simp [F64.le] at h
    | posInf => rfl
    | negInf => rfl
    | fin s2 a2 h2 => exact F64.le_negInf_round _ _ _
  | fin s1 a1 h1 =>
    cases b with
    | nan => simp [F64.le] at h
    | negInf => simp [F64.le] at h
    | posInf => exact F64.round_le_posInf _ _ _
    | fin s2 a2 h2 =>
      simp only [F64.le, decide_eq_true_eq] at h
      show F64.le (F64.ofExact _ _) (F64.ofExact _ _) = true
      unfold F64.ofExact
      apply F64.round_le_round
      rw [signed_ofExact, signed_ofExact]
      omega

theorem max_zero_fin (s : Bool) (x : Nat) (h : isDouble x = true) :
    max F64.zero (.fin s x h) = if signed s x < 0 then F64.zero else .fin s x h := by
  unfold max
  by_cases hneg : signed s x < 0
  · have hg : F64.gt F64.zero (.fin s x h) = true := by
      show Decidable.decide (signed s x < signed false 0) = true
      simpa [signed] using hneg
    rw [hg, if_pos hneg]
    rfl
  · have hg : F64.gt F64.zero (.fin s x h) = false := by
      show Decidable.decide (signed s x < signed false 0) = false
      simpa [signed] using hneg
    rw [hg, if_neg hneg]
    rfl

theorem F64.le_zero_fin (s : Bool) (x : Nat) (h : isDouble x = true) :
    F64.le F64.zero (.fin s x h) = Decidable.decide (0 ≤ signed s x) := by
  show Decidable.decide (signed false 0 ≤ signed s x) = _
  simp [signed]

/-- The function `max` with first argument `0` keeps the order. -/
theorem max_zero_mono (a b : F64) (h : F64.le a b = true) :
    F64.le (max F64.zero a) (max F64.zero b) = true := by
  cases a with
  | nan => simp [F64.le] at h
  | posInf =>
    cases b with
    | posInf => rfl
    | nan => simp [F64.le] at h
    | negInf => simp [F64.le] at h
    | fin s2 a2 h2 => simp [F64.le] at h
  | negInf =>
    have ea : max F64.zero .negInf = F64.zero := rfl
    rw [ea]
    cases b with
    | nan => simp [F64.le] at h
    | posInf => rfl
    | negInf => rfl
    | fin s2 a2 h2 =>
      rw [max_zero_fin]
      split
      · rfl
      · rename_i hn
        rw [F64.le_zero_fin]
        simpa using hn
  | fin s1 a1 h1 =>
    cases b with
    | nan => simp [F64.le] at h
    | negInf => simp [F64.le] at h
    | posInf =>
      have eb : max F64.zero .posInf = .posInf := rfl
      rw [eb, max_zero_fin]
      split <;> rfl
    | fin s2 a2 h2 =>
      simp only [F64.le, decide_eq_true_eq] at h
      rw [max_zero_fin, max_zero_fin]
      split <;> split
      · rfl
      · rename_i hn1 hn2
        rw [F64.le_zero_fin]
        simpa using hn2
      · omega
      · show Decidable.decide (signed s1 a1 ≤ signed s2 a2) = true
        simpa using h

/-! ## Facts about `decide` and `reconcile` -/

/-- The two local variables of `decide` are `upCond` and `downCond`. -/
theorem decide_eq (replica : GoInt32) (m : MetricsSnapshot) (c : Config) :
    decide replica m c =
      if (upCond m c && GoInt32.lt replica c.MaxReplicas) = true then
        (GoInt32.add replica GoInt32.one, "Any(metric)>threshold")
      else if (downCond m c && GoInt32.gt replica c.MinReplicas) = true then
        (GoInt32.sub replica GoInt32.one, "All(metric)<half-threshold")
      else (replica, "Hold") := rfl

/-- With positive thresholds the two metric conditions exclude each other. -/
theorem not_up_and_down (m : MetricsSnapshot) (c : Config)
    (hcpu : F64.gt c.CPUThreshold F64.zero = true)
    (hmem : F64.gt c.MemThreshold F64.zero = true)
    (hp95 : F64.gt c.P95Threshold F64.zero = true)
    (hup : upCond m c = true) : downCond m c = false := by
  simp only [upCond, Bool.or_eq_true] at hup
  simp only [downCond, Bool.and_eq_false_iff]
  rcases hup with (h | h) | h
  · exact Or.inl (Or.inl (F64.not_lt_half_of_gt _ _ hcpu h))
  · exact Or.inl (Or.inr (F64.not_lt_half_of_gt _ _ hmem h))
  · exact Or.inr (F64.not_lt_half_of_gt _ _ hp95 h)

/-- The successful scale branch of `reconcile`: the `Decision` is built after
`currentReplicas = next`, so its `From` is the new replica count. -/
theorem reconcile_scale_ok (cfg : Config) (env : TickEnv) (s : State)
    (hgate : ¬ env.sinceNow - s.lastScale < cfg.Cooldown)
    (hne : (decide s.currentReplicas env.metrics cfg).1 ≠ s.currentReplicas)
    (hok : env.scaleErr (decide s.currentReplicas env.metrics cfg).1 = none) :
    reconcile cfg env s =
      { state :=
          { lastScale := env.scaleNow,
            currentReplicas := (decide s.currentReplicas env.metrics cfg).1,
            events := appendEvent s.events
              { Time := env.eventNow, Action := "scale",
                From := (decide s.currentReplicas env.metrics cfg).1,
                To := (decide s.currentReplicas env.metrics cfg).1,
                Reason := (decide s.currentReplicas env.metrics cfg).2,
                Threshold := thresholdsString env.formatFloat cfg } },
        effects := [.fetchMetrics, .scaleTo (decide s.currentReplicas env.metrics cfg).1] } := by
  simp only [reconcile, if_neg hgate, hne, ne_eq, not_false_eq_true, if_true, hok]

/-- A target equal to the input comes from the last rule of `decide`. -/
theorem decide_reason_of_target_eq (replica : GoInt32) (m : MetricsSnapshot) (c : Config)
    (h : (decide replica m c).1 = replica) : (decide replica m c).2 = "Hold" := by
  rw [decide_eq] at h ⊢
  by_cases h1 : (upCond m c && GoInt32.lt replica c.MaxReplicas) = true
  · rw [if_pos h1] at h
    have hlt : replica.val < c.MaxReplicas.val :=
      (GoInt32.lt_iff _ _).mp (Bool.and_eq_true_iff.mp h1).2
    have hv := GoInt32.add_one_val replica c.MaxReplicas hlt
    have := congrArg Subtype.val h
    simp only at this
    omega
  · rw [if_neg h1] at h ⊢
    by_cases h2 : (downCond m c && GoInt32.gt replica c.MinReplicas) = true
    · rw [if_pos h2] at h
      have hgt : c.MinReplicas.val < replica.val :=
        (GoInt32.gt_iff _ _).mp (Bool.and_eq_true_iff.mp h2).2
      have hv := GoInt32.sub_one_val replica c.MinReplicas hgt
      have := congrArg Subtype.val h
      simp only at this
      omega
    · rw [if_neg h2]

/-- A tick stopped by the cooldown gate. -/
theorem reconcile_blocked (cfg : Config) (env : TickEnv) (s : State)
    (h : env.sinceNow - s.lastScale < cfg.Cooldown) :
    reconcile cfg env s = { state := s, effects := [] } := by
  simp only [reconcile, if_pos h]

/-- The branch of `reconcile` in which the actuator fails. -/
theorem reconcile_scale_err (cfg : Config) (env : TickEnv) (s : State) (err : String)
    (hgate : ¬ env.sinceNow - s.lastScale < cfg.Cooldown)
    (hne : (decide s.currentReplicas env.metrics cfg).1 ≠ s.currentReplicas)
    (herr : env.scaleErr (decide s.currentReplicas env.metrics cfg).1 = some err) :
    reconcile cfg env s =
      { state := s,
        effects := [.fetchMetrics, .scaleTo (decide s.currentReplicas env.metrics cfg).1,
          .logPrintf ("scale error: " ++ err)] } := by
  simp only [reconcile, if_neg hgate, hne, ne_eq, not_false_eq_true, if_true, herr]

/-- The hold branch of `reconcile`. -/
theorem reconcile_hold (cfg : Config) (env : TickEnv) (s : State)
    (hgate : ¬ env.sinceNow - s.lastScale < cfg.Cooldown)
    (heq : (decide s.currentReplicas env.metrics cfg).1 = s.currentReplicas) :
    reconcile cfg env s =
      { state :=
          { lastScale := s.lastScale, currentReplicas := s.currentReplicas,
            events := appendEvent s.events
              { Time := env.eventNow, Action := "hold", From := s.currentReplicas,
                To := (decide s.currentReplicas env.metrics cfg).1,
                Reason := (decide s.currentReplicas env.metrics cfg).2,
                Threshold := thresholdsString env.formatFloat cfg } },
        effects := [.fetchMetrics] } := by
  simp only [reconcile, if_neg hgate, heq, ne_eq, not_true_eq_false, if_false]

/-- The two statements of `appendEvent` keep the last 500 entries. -/
theorem appendEvent_eq_drop (log : List Decision) (d : Decision) :
    appendEvent log d = (log ++ [d]).drop ((log ++ [d]).length - 500) := by
  unfold appendEvent
  by_cases h : (log ++ [d]).length > 500
  · simp only [if_pos h]
  · simp only [if_neg h]
    have h0 : (log ++ [d]).length - 500 = 0 := by omega
    rw [h0, List.drop_zero]

/-- Below the capacity nothing is evicted. -/
theorem appendEvent_of_lt (log : List Decision) (d : Decision) (h : log.length < 500) :
    appendEvent log d = log ++ [d] := by
  have h0 : (log ++ [d]).length - 500 = 0 := by
    rw [List.length_append, List.length_singleton]
    omega
  rw [appendEvent_eq_drop, h0, List.drop_zero]

theorem appendEvent_length_le (log : List Decision) (d : Decision) :
    (appendEvent log d).length ≤ 500 := by
  rw [appendEvent_eq_drop, List.length_drop]
  omega

/-- Recording a sequence of `Decision`s keeps the last 500 of the whole sequence. -/
theorem foldl_appendEvent (log ds : List Decision) (h : log.length ≤ 500) :
    ds.foldl appendEvent log = (log ++ ds).drop ((log ++ ds).length - 500) := by
  induction ds using List.reverseRecOn with
  | nil =>
    have h0 : (log ++ ([] : List Decision)).length - 500 = 0 := by
      simp only [List.append_nil]; omega
    rw [h0, List.drop_zero, List.append_nil, List.foldl_nil]
  | append_singleton ds d ih =>
    rw [List.foldl_append, List.foldl_cons, List.foldl_nil, ih, appendEvent_eq_drop,
      ← List.append_assoc, List.length_append, List.length_drop, List.length_singleton]
    have hk : (log ++ ds).length - 500 ≤ (log ++ ds).length := Nat.sub_le _ _
    rw [← List.drop_append_of_le_length hk, List.drop_drop]
    have hn : (log ++ ds).length - 500 + ((log ++ ds).length - ((log ++ ds).length - 500)
        + 1 - 500) = (log ++ ds ++ [d]).length - 500 := by
      rw [List.length_append (log ++ ds), List.length_singleton]
      omega
    rw [hn]

/-- The target of `decide` stays in the band of the input. -/
theorem decide_target_in_band (r : GoInt32) (m : MetricsSnapshot) (c : Config)
    (hmin : c.MinReplicas.val ≤ r.val) (hmax : r.val ≤ c.MaxReplicas.val) :
    c.MinReplicas.val ≤ (decide r m c).1.val ∧ (decide r m c).1.val ≤ c.MaxReplicas.val := by
  rw [decide_eq]
  split
  · rename_i h1
    have hlt := (GoInt32.lt_iff _ _).mp (Bool.and_eq_true_iff.mp h1).2
    rw [GoInt32.add_one_val r c.MaxReplicas hlt]
    omega
  · split
    · rename_i h2
      have hgt := (GoInt32.gt_iff _ _).mp (Bool.and_eq_true_iff.mp h2).2
      rw [GoInt32.sub_one_val r c.MinReplicas hgt]
      omega
    · exact ⟨hmin, hmax⟩

/-- The replica count after a tick is the one before or the target of `decide`. -/
theorem reconcile_currentReplicas (cfg : Config) (env : TickEnv) (s : State) :
    (reconcile cfg env s).state.currentReplicas = s.currentReplicas
      ∨ (reconcile cfg env s).state.currentReplicas
          = (decide s.currentReplicas env.metrics cfg).1 := by
  by_cases hg : env.sinceNow - s.lastScale < cfg.Cooldown
  · rw [reconcile_blocked cfg env s hg]
    exact Or.inl rfl
  · by_cases heq : (decide s.currentReplicas env.metrics cfg).1 = s.currentReplicas
    · rw [reconcile_hold cfg env s hg heq]
      exact Or.inl rfl
    · cases herr : env.scaleErr (decide s.currentReplicas env.metrics cfg).1 with
      | none =>
        rw [reconcile_scale_ok cfg env s hg heq herr]
        exact Or.inr rfl
      | some err =>
        rw [reconcile_scale_err cfg env s err hg heq herr]
        exact Or.inl rfl

/-- A tick keeps the replica count in the band. -/
theorem reconcile_preserves_band (cfg : Config) (env : TickEnv) (s : State)
    (h : inBand cfg s) : inBand cfg (reconcile cfg env s).state := by
  unfold inBand at h ⊢
  rcases reconcile_currentReplicas cfg env s with h1 | h1
  · rw [h1]
    exact h
  · rw [h1]
    exact decide_target_in_band _ _ _ h.1 h.2

/-- Ticks keep the replica count in the band. -/
theorem runTicks_preserves_band (cfg : Config) (envs : List TickEnv) (s : State)
    (h : inBand cfg s) : inBand cfg (runTicks cfg envs s) := by
  induction envs generalizing s with
  | nil => exact h
  | cons env envs ih =>
    simp only [runTicks, List.foldl_cons]
    exact ih _ (reconcile_preserves_band cfg env s h)

/-- Recording a `Decision` raises the number of scale entries by at most one,
and not at all for an entry that is not a scale entry. -/
theorem scaleCount_appendEvent_le (log : List Decision) (d : Decision) :
    scaleCount (appendEvent log d) ≤ scaleCount log + scaleCount [d] := by
  rw [appendEvent_eq_drop]
  unfold scaleCount
  generalize (log ++ [d]).length - 500 = k
  have hsub : (List.drop k (log ++ [d])).Sublist (log ++ [d]) := List.drop_sublist k _
  have hle := (hsub.filter (fun d => d.Action == "scale")).length_le
  rw [List.filter_append, List.length_append] at hle
  exact hle

theorem scaleCount_singleton_le (d : Decision) : scaleCount [d] ≤ 1 := by
  unfold scaleCount
  exact le_trans (List.length_filter_le _ _) (le_of_eq rfl)

theorem scaleCount_singleton_of_ne (d : Decision) (h : d.Action ≠ "scale") :
    scaleCount [d] = 0 := by
  simp [scaleCount, h]

/-- A tick makes at most one actuator call. -/
theorem reconcile_actuatorCalls_le (cfg : Config) (env : TickEnv) (s : State) :
    actuatorCalls (reconcile cfg env s).effects ≤ 1 := by
  by_cases hg : env.sinceNow - s.lastScale < cfg.Cooldown
  · rw [reconcile_blocked cfg env s hg]
    exact Nat.zero_le 1
  · by_cases heq : (decide s.currentReplicas env.metrics cfg).1 = s.currentReplicas
    · rw [reconcile_hold cfg env s hg heq]
      exact Nat.zero_le 1
    · cases herr : env.scaleErr (decide s.currentReplicas env.metrics cfg).1 with
      | none =>
        rw [reconcile_scale_ok cfg env s hg heq herr]
        simp [actuatorCalls]
      | some err =>
        rw [reconcile_scale_err cfg env s err hg heq herr]
        simp [actuatorCalls]

/-- What one tick does to the cooldown and to the scale entries: either it made
exactly one successful actuator call, `lastScale` is then the clock reading
taken after the call, and at most one scale entry was added; or it made no
successful call and no scale entry was added. -/
theorem reconcile_tick_cases (cfg : Config) (env : TickEnv) (s : State) :
    (successfulCalls env (reconcile cfg env s).effects = 1
        ∧ (reconcile cfg env s).state.lastScale = env.scaleNow
        ∧ scaleCount (reconcile cfg env s).state.events ≤ scaleCount s.events + 1)
    ∨ (successfulCalls env (reconcile cfg env s).effects = 0
        ∧ scaleCount (reconcile cfg env s).state.events ≤ scaleCount s.events) := by
  by_cases hg : env.sinceNow - s.lastScale < cfg.Cooldown
  · right
    rw [reconcile_blocked cfg env s hg]
    exact ⟨rfl, le_refl _⟩
  · by_cases heq : (decide s.currentReplicas env.metrics cfg).1 = s.currentReplicas
    · right
      rw [reconcile_hold cfg env s hg heq]
      refine ⟨rfl, ?_⟩
      have h := scaleCount_appendEvent_le s.events
        { Time := env.eventNow, Action := "hold", From := s.currentReplicas,
          To := (decide s.currentReplicas env.metrics cfg).1,
          Reason := (decide s.currentReplicas env.metrics cfg).2,
          Threshold := thresholdsString env.formatFloat cfg }
      have hact : ("hold" : String) ≠ "scale" := by decide
      rw [scaleCount_singleton_of_ne _ hact] at h
      exact h
    · cases herr : env.scaleErr (decide s.currentReplicas env.metrics cfg).1 with
      | none =>
        left
        rw [reconcile_scale_ok cfg env s hg heq herr]
        refine ⟨?_, rfl, ?_⟩
        · simp [successfulCalls, herr]
        · exact le_trans (scaleCount_appendEvent_le _ _)
            (Nat.add_le_add_left (scaleCount_singleton_le _) _)
      | some err =>
        right
        rw [reconcile_scale_err cfg env s err hg heq herr]
        refine ⟨?_, le_refl _⟩
        simp [successfulCalls, herr]

/-- Under thresholds 500/512/400 the metrics (250,256,120) hold at 3 replicas. -/
theorem decide_cfg0_hold :
    decide ⟨3, by decide⟩ (snap 250 256 120) cfg0 = (⟨3, by decide⟩, "Hold") := by
  decide

/-- A hold tick at instant 100s from the state with 3 replicas and an empty log. -/
theorem reconcile_cfg0_hold :
    reconcile cfg0 (env0 100000000000 (snap 250 256 120) none) ⟨0, ⟨3, by decide⟩, []⟩
      = { state := { lastScale := 0, currentReplicas := ⟨3, by decide⟩,
                     events := [{ Time := 100000000002, Action := "hold",
                                  From := ⟨3, by decide⟩, To := ⟨3, by decide⟩,
                                  Reason := "Hold", Threshold := "CPU>,Mem>,P95>" }] },
          effects := [.fetchMetrics] } := by
  have hg : ¬ (env0 100000000000 (snap 250 256 120) none).sinceNow
      - (⟨0, ⟨3, by decide⟩, []⟩ : State).lastScale < cfg0.Cooldown := by decide
  have hd : (decide (⟨0, ⟨3, by decide⟩, []⟩ : State).currentReplicas
      (env0 100000000000 (snap 250 256 120) none).metrics cfg0).1
      = (⟨0, ⟨3, by decide⟩, []⟩ : State).currentReplicas := by
    show (decide ⟨3, by decide⟩ (snap 250 256 120) cfg0).1 = ⟨3, by decide⟩
    rw [decide_cfg0_hold]
  rw [reconcile_hold cfg0 _ _ hg hd]
  show _ = _
  simp only [env0]
  rw [decide_cfg0_hold]
  rfl

/-- The three outcomes of `decide`, with the tests that lead to each. -/
theorem decide_val_cases (r : GoInt32) (m : MetricsSnapshot) (c : Config) :
    (upCond m c = true ∧ r.val < c.MaxReplicas.val ∧ (decide r m c).1.val = r.val + 1)
    ∨ (downCond m c = true ∧ c.MinReplicas.val < r.val
        ∧ ¬ (upCond m c = true ∧ r.val < c.MaxReplicas.val)
        ∧ (decide r m c).1.val = r.val - 1)
    ∨ (¬ (upCond m c = true ∧ r.val < c.MaxReplicas.val)
        ∧ ¬ (downCond m c = true ∧ c.MinReplicas.val < r.val)
        ∧ (decide r m c).1 = r) := by
  rw [decide_eq]
  by_cases h1 : (upCond m c && GoInt32.lt r c.MaxReplicas) = true
  · have h := Bool.and_eq_true_iff.mp h1
    have hlt := (GoInt32.lt_iff _ _).mp h.2
    rw [if_pos h1]
    exact Or.inl ⟨h.1, hlt, GoInt32.add_one_val r c.MaxReplicas hlt⟩
  · have hn1 : ¬ (upCond m c = true ∧ r.val < c.MaxReplicas.val) := by
      rintro ⟨hu, hlt⟩
      exact h1 (Bool.and_eq_true_iff.mpr ⟨hu, (GoInt32.lt_iff _ _).mpr hlt⟩)
    rw [if_neg h1]
    by_cases h2 : (downCond m c && GoInt32.gt r c.MinReplicas) = true
    · have h := Bool.and_eq_true_iff.mp h2
      have hgt := (GoInt32.gt_iff _ _).mp h.2
      rw [if_pos h2]
      exact Or.inr (Or.inl ⟨h.1, hgt, hn1, GoInt32.sub_one_val r c.MinReplicas hgt⟩)
    · have hn2 : ¬ (downCond m c = true ∧ c.MinReplicas.val < r.val) := by
        rintro ⟨hd, hgt⟩
        exact h2 (Bool.and_eq_true_iff.mpr ⟨hd, (GoInt32.gt_iff _ _).mpr hgt⟩)
      rw [if_neg h2]
      exact Or.inr (Or.inr ⟨hn1, hn2, rfl⟩)

/-- The scale-up condition is monotone in the metrics. -/
theorem upCond_mono (m1 m2 : MetricsSnapshot) (c : Config)
    (hcpu : F64.le m1.CPU m2.CPU = true) (hmem : F64.le m1.Mem m2.Mem = true)
    (hp95 : F64.le m1.P95 m2.P95 = true) (h : upCond m1 c = true) : upCond m2 c = true := by
  simp only [upCond, Bool.or_eq_true] at h ⊢
  rcases h with (h | h) | h
  · exact Or.inl (Or.inl (F64.gt_of_le_of_gt _ _ _ hcpu h))
  · exact Or.inl (Or.inr (F64.gt_of_le_of_gt _ _ _ hmem h))
  · exact Or.inr (F64.gt_of_le_of_gt _ _ _ hp95 h)

/-- The scale-down condition is antitone in the metrics. -/
theorem downCond_anti (m1 m2 : MetricsSnapshot) (c : Config)
    (hcpu : F64.le m1.CPU m2.CPU = true) (hmem : F64.le m1.Mem m2.Mem = true)
    (hp95 : F64.le m1.P95 m2.P95 = true) (h : downCond m2 c = true) :
    downCond m1 c = true := by
  simp only [downCond, Bool.and_eq_true] at h ⊢
  exact ⟨⟨F64.lt_of_le_of_lt _ _ _ hcpu h.1.1, F64.lt_of_le_of_lt _ _ _ hmem h.1.2⟩,
    F64.lt_of_le_of_lt _ _ _ hp95 h.2⟩

theorem F64.ofInt_two : F64.ofInt 2 = .fin false (2 * 2 ^ 1074) (by decide) := by decide

theorem F64.ofInt_100 : F64.ofInt 100 = .fin false (100 * 2 ^ 1074) (by decide) := by decide

theorem F64.ofInt_200 : F64.ofInt 200 = .fin false (200 * 2 ^ 1074) (by decide) := by decide

/-- The synthesized metrics are monotone in the load. -/
theorem synthesizeMetrics_mono (rps1 rps2 : F64) (now1 now2 : GoTime)
    (h : F64.le rps1 rps2 = true) :
    F64.le (synthesizeMetrics rps1 now1).CPU (synthesizeMetrics rps2 now2).CPU = true
    ∧ F64.le (synthesizeMetrics rps1 now1).Mem (synthesizeMetrics rps2 now2).Mem = true
    ∧ F64.le (synthesizeMetrics rps1 now1).P95 (synthesizeMetrics rps2 now2).P95 = true := by
  refine ⟨?_, ?_, ?_⟩
  · show F64.le (F64.mul (F64.ofInt 2) rps1) (F64.mul (F64.ofInt 2) rps2) = true
    rw [F64.ofInt_two]
    exact F64.mul_le_mul_left _ _ (by decide) _ _ h
  · show F64.le (F64.mul (F64.ofInt 1) rps1) (F64.mul (F64.ofInt 1) rps2) = true
    rw [F64.one_mul, F64.one_mul]
    exact h
  · show F64.le
      (F64.add (F64.ofInt 100)
        (F64.mul (max F64.zero (F64.sub rps1 (F64.ofInt 200))) F64.point8))
      (F64.add (F64.ofInt 100)
        (F64.mul (max F64.zero (F64.sub rps2 (F64.ofInt 200))) F64.point8)) = true
    have h1 : F64.le (F64.sub rps1 (F64.ofInt 200)) (F64.sub rps2 (F64.ofInt 200)) = true := by
      rw [F64.ofInt_200]
      exact F64.sub_le_sub_right _ _ _ _ _ h
    have h2 := max_zero_mono _ _ h1
    have h3 : F64.le (F64.mul F64.point8 (max F64.zero (F64.sub rps1 (F64.ofInt 200))))
        (F64.mul F64.point8 (max F64.zero (F64.sub rps2 (F64.ofInt 200)))) = true :=
      F64.mul_le_mul_left _ _ (by decide) _ _ h2
    rw [F64.mul_comm _ F64.point8, F64.mul_comm _ F64.point8, F64.ofInt_100]
    exact F64.add_le_add_left _ _ _ _ _ h3

/-- C1: `decide` implements the three-rule table, first match wins.  For every
replica count, metrics and config: if some metric is above its threshold and
`replica < MaxReplicas` the result is `(replica+1, "Any(metric)>threshold")`;
otherwise, if every metric is below `0.5 *` its threshold and
`replica > MinReplicas`, it is `(replica-1, "All(metric)<half-threshold")`;
otherwise it is `(replica, "Hold")`.  The sums are the mathematical ones.  With
thresholds 500/512/400, min 1, max 10 and current 3, metrics (600,200,100) give
`(4, "Any(metric)>threshold")` and (100,50,50) give
`(2, "All(metric)<half-threshold")`. -/
theorem decide_rule_table :
    (∀ (replica : GoInt32) (m : MetricsSnapshot) (c : Config),
      ((decide replica m c).1.val, (decide replica m c).2) =
        if (F64.gt m.CPU c.CPUThreshold = true ∨ F64.gt m.Mem c.MemThreshold = true
            ∨ F64.gt m.P95 c.P95Threshold = true) ∧ replica.val < c.MaxReplicas.val then
          (replica.val + 1, "Any(metric)>threshold")
        else if (F64.lt m.CPU (F64.mul F64.half c.CPUThreshold) = true
            ∧ F64.lt m.Mem (F64.mul F64.half c.MemThreshold) = true
            ∧ F64.lt m.P95 (F64.mul F64.half c.P95Threshold) = true)
            ∧ replica.val > c.MinReplicas.val then
          (replica.val - 1, "All(metric)<half-threshold")
        else
          (replica.val, "Hold"))
    ∧ ((decide ⟨3, by decide⟩ (snap 600 200 100) cfg0).1.val,
        (decide ⟨3, by decide⟩ (snap 600 200 100) cfg0).2) = (4, "Any(metric)>threshold")
    ∧ ((decide ⟨3, by decide⟩ (snap 100 50 50) cfg0).1.val,
        (decide ⟨3, by decide⟩ (snap 100 50 50) cfg0).2)
        = (2, "All(metric)<half-threshold") := by
  refine ⟨?_, by decide, by decide⟩
  · intro replica m c
    have hup : (upCond m c && GoInt32.lt replica c.MaxReplicas) = true ↔
        ((F64.gt m.CPU c.CPUThreshold = true ∨ F64.gt m.Mem c.MemThreshold = true
            ∨ F64.gt m.P95 c.P95Threshold = true) ∧ replica.val < c.MaxReplicas.val) := by
      simp [upCond, GoInt32.lt, or_assoc]
    have hdown : (downCond m c && GoInt32.gt replica c.MinReplicas) = true ↔
        ((F64.lt m.CPU (F64.mul F64.half c.CPUThreshold) = true
            ∧ F64.lt m.Mem (F64.mul F64.half c.MemThreshold) = true
            ∧ F64.lt m.P95 (F64.mul F64.half c.P95Threshold) = true)
            ∧ replica.val > c.MinReplicas.val) := by
      simp [downCond, GoInt32.gt, F64.mul_comm F64.half, and_assoc]
    rw [decide_eq]
    by_cases h1 : (upCond m c && GoInt32.lt replica c.MaxReplicas) = true
    · rw [if_pos h1, if_pos (hup.mp h1)]
      simp [GoInt32.add_one_val replica c.MaxReplicas (hup.mp h1).2]
    · rw [if_neg h1, if_neg (mt hup.mpr h1)]
      by_cases h2 : (downCond m c && GoInt32.gt replica c.MinReplicas) = true
      · rw [if_pos h2, if_pos (hdown.mp h2)]
        simp [GoInt32.sub_one_val replica c.MinReplicas (hdown.mp h2).2]
      · rw [if_neg h2, if_neg (mt hdown.mpr h2)]

/-- C2: for every config, every metrics snapshot and every `current` with
`MinReplicas <= current <= MaxReplicas`, the target returned by `decide` lies in
`[MinReplicas, MaxReplicas]`. -/
theorem decide_in_band (current : GoInt32) (m : MetricsSnapshot) (c : Config)
    (hmin : c.MinReplicas.val ≤ current.val) (hmax : current.val ≤ c.MaxReplicas.val) :
    c.MinReplicas.val ≤ (decide current m c).1.val
      ∧ (decide current m c).1.val ≤ c.MaxReplicas.val := by
  rw [decide_eq]
  by_cases h1 : (upCond m c && GoInt32.lt current c.MaxReplicas) = true
  · rw [if_pos h1]
    have hlt : current.val < c.MaxReplicas.val :=
      (GoInt32.lt_iff _ _).mp (Bool.and_eq_true_iff.mp h1).2
    rw [GoInt32.add_one_val current c.MaxReplicas hlt]
    omega
  · rw [if_neg h1]
    by_cases h2 : (downCond m c && GoInt32.gt current c.MinReplicas) = true
    · rw [if_pos h2]
      have hgt : c.MinReplicas.val < current.val :=
        (GoInt32.gt_iff _ _).mp (Bool.and_eq_true_iff.mp h2).2
      rw [GoInt32.sub_one_val current c.MinReplicas hgt]
      omega
    · rw [if_neg h2]
      exact ⟨hmin, hmax⟩

/-- Witness of C2: current 3 in the band 1..10 with metrics (600,200,100). -/
theorem decide_in_band_witness :
    cfg0.MinReplicas.val ≤ 3 ∧ 3 ≤ cfg0.MaxReplicas.val
      ∧ cfg0.MinReplicas.val ≤ (decide ⟨3, by decide⟩ (snap 600 200 100) cfg0).1.val
      ∧ (decide ⟨3, by decide⟩ (snap 600 200 100) cfg0).1.val ≤ cfg0.MaxReplicas.val :=
  ⟨by decide, by decide,
    decide_in_band ⟨3, by decide⟩ (snap 600 200 100) cfg0 (by decide) (by decide)⟩

/-- C3: the step of `decide` is exactly one replica or zero and the reason names
it.  For every `int32` replica, metrics and config the result is one of
`(replica+1, "Any(metric)>threshold")` (and then `replica < MaxReplicas`),
`(replica-1, "All(metric)<half-threshold")` (and then `replica > MinReplicas`) or
`(replica, "Hold")`, the sums being the mathematical ones; and the reason is
`"Hold"` if and only if the target is `replica`. -/
theorem decide_step (replica : GoInt32) (m : MetricsSnapshot) (c : Config) :
    (((decide replica m c).1.val = replica.val + 1
          ∧ (decide replica m c).2 = "Any(metric)>threshold"
          ∧ replica.val < c.MaxReplicas.val)
      ∨ ((decide replica m c).1.val = replica.val - 1
          ∧ (decide replica m c).2 = "All(metric)<half-threshold"
          ∧ replica.val > c.MinReplicas.val)
      ∨ ((decide replica m c).1 = replica ∧ (decide replica m c).2 = "Hold"))
    ∧ ((decide replica m c).2 = "Hold" ↔ (decide replica m c).1 = replica) := by
  rw [decide_eq]
  by_cases h1 : (upCond m c && GoInt32.lt replica c.MaxReplicas) = true
  · rw [if_pos h1]
    have hlt : replica.val < c.MaxReplicas.val :=
      (GoInt32.lt_iff _ _).mp (Bool.and_eq_true_iff.mp h1).2
    have hv := GoInt32.add_one_val replica c.MaxReplicas hlt
    refine ⟨Or.inl ⟨hv, rfl, hlt⟩, ?_⟩
    constructor
    · intro h
      have h0 : ("Any(metric)>threshold" : String) ≠ "Hold" := by decide
      exact absurd h h0
    · intro h
      have := congrArg Subtype.val h
      simp only at this
      omega
  · rw [if_neg h1]
    by_cases h2 : (downCond m c && GoInt32.gt replica c.MinReplicas) = true
    · rw [if_pos h2]
      have hgt : c.MinReplicas.val < replica.val :=
        (GoInt32.gt_iff _ _).mp (Bool.and_eq_true_iff.mp h2).2
      have hv := GoInt32.sub_one_val replica c.MinReplicas hgt
      refine ⟨Or.inr (Or.inl ⟨hv, rfl, hgt⟩), ?_⟩
      constructor
      · intro h
        have h0 : ("All(metric)<half-threshold" : String) ≠ "Hold" := by decide
        exact absurd h h0
      · intro h
        have := congrArg Subtype.val h
        simp only at this
        omega
    · rw [if_neg h2]
      exact ⟨Or.inr (Or.inr ⟨rfl, rfl⟩), fun _ => rfl, fun _ => rfl⟩

/-- C4: boundary exactness of `decide`.  For every config whose three thresholds
are `> 0` and every `current`: if each of cpu, mem, p95 equals its threshold, or
each equals half its threshold, then `decide` returns `(current, "Hold")`.
Metric by metric: a metric equal to its threshold does not satisfy the scale-up
comparison, so with the other two metrics not above their thresholds `decide`
does not scale up; and a metric equal to half its threshold does not satisfy
the scale-down comparison, so whatever the other two metrics are `decide` does
not scale down. -/
theorem decide_boundary_holds (current : GoInt32) (m : MetricsSnapshot) (c : Config)
    (hcpu : F64.gt c.CPUThreshold F64.zero = true)
    (hmem : F64.gt c.MemThreshold F64.zero = true)
    (hp95 : F64.gt c.P95Threshold F64.zero = true) :
    ((m.CPU = c.CPUThreshold ∧ m.Mem = c.MemThreshold ∧ m.P95 = c.P95Threshold) →
        decide current m c = (current, "Hold"))
    ∧ ((m.CPU = F64.mul F64.half c.CPUThreshold ∧ m.Mem = F64.mul F64.half c.MemThreshold
          ∧ m.P95 = F64.mul F64.half c.P95Threshold) →
        decide current m c = (current, "Hold"))
    ∧ (m.CPU = c.CPUThreshold → F64.gt m.Mem c.MemThreshold = false →
        F64.gt m.P95 c.P95Threshold = false →
        (decide current m c).2 ≠ "Any(metric)>threshold")
    ∧ (m.Mem = c.MemThreshold → F64.gt m.CPU c.CPUThreshold = false →
        F64.gt m.P95 c.P95Threshold = false →
        (decide current m c).2 ≠ "Any(metric)>threshold")
    ∧ (m.P95 = c.P95Threshold → F64.gt m.CPU c.CPUThreshold = false →
        F64.gt m.Mem c.MemThreshold = false →
        (decide current m c).2 ≠ "Any(metric)>threshold")
    ∧ (m.CPU = F64.mul F64.half c.CPUThreshold →
        (decide current m c).2 ≠ "All(metric)<half-threshold")
    ∧ (m.Mem = F64.mul F64.half c.MemThreshold →
        (decide current m c).2 ≠ "All(metric)<half-threshold")
    ∧ (m.P95 = F64.mul F64.half c.P95Threshold →
        (decide current m c).2 ≠ "All(metric)<half-threshold") := by
  have hnoup : upCond m c = false → (decide current m c).2 ≠ "Any(metric)>threshold" := by
    intro hu
    have h1 : ("All(metric)<half-threshold" : String) ≠ "Any(metric)>threshold" := by decide
    have h2 : ("Hold" : String) ≠ "Any(metric)>threshold" := by decide
    rw [decide_eq]
    simp only [hu, Bool.false_and, Bool.false_eq_true, if_false]
    split
    · exact h1
    · exact h2
  have hnodown : downCond m c = false →
      (decide current m c).2 ≠ "All(metric)<half-threshold" := by
    intro hd
    have h1 : ("Any(metric)>threshold" : String) ≠ "All(metric)<half-threshold" := by decide
    have h2 : ("Hold" : String) ≠ "All(metric)<half-threshold" := by decide
    rw [decide_eq]
    simp only [hd, Bool.false_and, Bool.false_eq_true, if_false]
    split
    · exact h1
    · exact h2
  refine ⟨?_, ?_, ?_, ?_, ?_, ?_, ?_, ?_⟩
  · rintro ⟨e1, e2, e3⟩
    have hu : upCond m c = false := by
      simp [upCond, e1, e2, e3, F64.gt_irrefl]
    have hd : downCond m c = false := by
      simp [downCond, e1, F64.not_lt_half_self _ hcpu]
    rw [decide_eq]
    simp [hu, hd]
  · rintro ⟨e1, e2, e3⟩
    rw [F64.mul_comm] at e1 e2 e3
    have hu : upCond m c = false := by
      simp [upCond, e1, e2, e3, F64.half_not_gt _ hcpu, F64.half_not_gt _ hmem,
        F64.half_not_gt _ hp95]
    have hd : downCond m c = false := by
      simp [downCond, e1, F64.lt_irrefl]
    rw [decide_eq]
    simp [hu, hd]
  · intro e h2 h3
    apply hnoup
    simp [upCond, e, h2, h3, F64.gt_irrefl]
  · intro e h1 h3
    apply hnoup
    simp [upCond, e, h1, h3, F64.gt_irrefl]
  · intro e h1 h2
    apply hnoup
    simp [upCond, e, h1, h2, F64.gt_irrefl]
  · intro e
    apply hnodown
    simp [downCond, e, F64.mul_comm F64.half, F64.lt_irrefl]
  · intro e
    apply hnodown
    simp [downCond, e, F64.mul_comm F64.half, F64.lt_irrefl]
  · intro e
    apply hnodown
    simp [downCond, e, F64.mul_comm F64.half, F64.lt_irrefl]

/-- Witness of C4: thresholds 500/512/400 and current 3 (above min 1, below max
10).  Metrics (500,512,400) and (250,256,200) hold; with only mem at half its
threshold, (100,256,50), there is no scale-down; with only mem at its
threshold, (100,512,100), there is no scale-up. -/
theorem decide_boundary_holds_witness :
    (F64.gt cfg0.CPUThreshold F64.zero = true ∧ F64.gt cfg0.MemThreshold F64.zero = true
      ∧ F64.gt cfg0.P95Threshold F64.zero = true)
    ∧ decide ⟨3, by decide⟩ (snap 500 512 400) cfg0 = (⟨3, by decide⟩, "Hold")
    ∧ decide ⟨3, by decide⟩ (snap 250 256 200) cfg0 = (⟨3, by decide⟩, "Hold")
    ∧ (decide ⟨3, by decide⟩ (snap 100 256 50) cfg0).2 ≠ "All(metric)<half-threshold"
    ∧ (decide ⟨3, by decide⟩ (snap 100 512 100) cfg0).2 ≠ "Any(metric)>threshold" :=
  ⟨⟨by decide, by decide, by decide⟩,
    (decide_boundary_holds ⟨3, by decide⟩ (snap 500 512 400) cfg0
      (by decide) (by decide) (by decide)).1 ⟨rfl, rfl, rfl⟩,
    (decide_boundary_holds ⟨3, by decide⟩ (snap 250 256 200) cfg0
      (by decide) (by decide) (by decide)).2.1 ⟨by decide, by decide, by decide⟩,
    (decide_boundary_holds ⟨3, by decide⟩ (snap 100 256 50) cfg0
      (by decide) (by decide) (by decide)).2.2.2.2.2.2.1 (by decide),
    (decide_boundary_holds ⟨3, by decide⟩ (snap 100 512 100) cfg0
      (by decide) (by decide) (by decide)).2.2.2.1 rfl (by decide) (by decide)⟩

/-- C5: bounds are held, not crossed.  For every config with all three thresholds
`> 0` and every metrics snapshot: if `current = MaxReplicas` and some metric is
above its threshold, `decide` returns `(current, "Hold")`; if
`current = MinReplicas` and all metrics are below half their thresholds,
`decide` returns `(current, "Hold")`. -/
theorem decide_holds_at_bounds (current : GoInt32) (m : MetricsSnapshot) (c : Config)
    (hcpu : F64.gt c.CPUThreshold F64.zero = true)
    (hmem : F64.gt c.MemThreshold F64.zero = true)
    (hp95 : F64.gt c.P95Threshold F64.zero = true) :
    (current = c.MaxReplicas →
        (F64.gt m.CPU c.CPUThreshold = true ∨ F64.gt m.Mem c.MemThreshold = true
          ∨ F64.gt m.P95 c.P95Threshold = true) →
        decide current m c = (current, "Hold"))
    ∧ (current = c.MinReplicas →
        (F64.lt m.CPU (F64.mul F64.half c.CPUThreshold) = true
          ∧ F64.lt m.Mem (F64.mul F64.half c.MemThreshold) = true
          ∧ F64.lt m.P95 (F64.mul F64.half c.P95Threshold) = true) →
        decide current m c = (current, "Hold")) := by
  constructor
  · intro hc hup
    have hu : upCond m c = true := by
      simp only [upCond, Bool.or_eq_true]
      tauto
    have hd : downCond m c = false := not_up_and_down m c hcpu hmem hp95 hu
    rw [decide_eq]
    simp [hd, hc, GoInt32.lt]
  · intro hc hdown
    have hd : downCond m c = true := by
      simp only [downCond, Bool.and_eq_true, F64.mul_comm _ F64.half]
      tauto
    have hu : upCond m c = false := by
      cases h : upCond m c
      · rfl
      · rw [not_up_and_down m c hcpu hmem hp95 h] at hd
        exact absurd hd (by decide)
    rw [decide_eq]
    simp [hu, hc, GoInt32.gt]

/-- Witness of C5: with thresholds 500/512/400, `current = max = 10` under the up
condition (600,200,100) gives `(10, "Hold")`, and `current = min = 1` under the
down condition (100,50,50) gives `(1, "Hold")`. -/
theorem decide_holds_at_bounds_witness :
    (F64.gt cfg0.CPUThreshold F64.zero = true ∧ F64.gt cfg0.MemThreshold F64.zero = true
      ∧ F64.gt cfg0.P95Threshold F64.zero = true)
    ∧ cfg0.MaxReplicas.val = 10 ∧ cfg0.MinReplicas.val = 1
    ∧ decide ⟨10, by decide⟩ (snap 600 200 100) cfg0 = (⟨10, by decide⟩, "Hold")
    ∧ decide ⟨1, by decide⟩ (snap 100 50 50) cfg0 = (⟨1, by decide⟩, "Hold") :=
  ⟨⟨by decide, by decide, by decide⟩, rfl, rfl,
    (decide_holds_at_bounds ⟨10, by decide⟩ (snap 600 200 100) cfg0
      (by decide) (by decide) (by decide)).1 rfl (Or.inl (by decide)),
    (decide_holds_at_bounds ⟨1, by decide⟩ (snap 100 50 50) cfg0
      (by decide) (by decide) (by decide)).2 rfl
      ⟨by decide, by decide, by decide⟩⟩

/-- C6: up-check precedence.  For every config (thresholds of any sign), every
`current < MaxReplicas` and every metrics snapshot that satisfies both the
scale-up and the scale-down metric condition, `decide` returns
`(current+1, "Any(metric)>threshold")`, never a scale-down. -/
theorem decide_up_precedence (current : GoInt32) (m : MetricsSnapshot) (c : Config)
    (hlt : current.val < c.MaxReplicas.val)
    (hup : F64.gt m.CPU c.CPUThreshold = true ∨ F64.gt m.Mem c.MemThreshold = true
      ∨ F64.gt m.P95 c.P95Threshold = true)
    (hdown : F64.lt m.CPU (F64.mul F64.half c.CPUThreshold) = true
      ∧ F64.lt m.Mem (F64.mul F64.half c.MemThreshold) = true
      ∧ F64.lt m.P95 (F64.mul F64.half c.P95Threshold) = true) :
    (decide current m c).1.val = current.val + 1
      ∧ (decide current m c).2 = "Any(metric)>threshold"
      ∧ (decide current m c).1.val ≠ current.val - 1 := by
  have hu : upCond m c = true := by
    simp only [upCond, Bool.or_eq_true]
    tauto
  have h1 : (upCond m c && GoInt32.lt current c.MaxReplicas) = true := by
    simp [hu, GoInt32.lt, hlt]
  have hv := GoInt32.add_one_val current c.MaxReplicas hlt
  rw [decide_eq, if_pos h1]
  refine ⟨hv, rfl, ?_⟩
  rw [hv]
  omega

/-- Witness of C6: thresholds `-100`, metrics `-60` (above `-100`, below `-50`),
current 3 below max 10: the result is `(4, "Any(metric)>threshold")`. -/
theorem decide_up_precedence_witness :
    (F64.gt (snap (-60) (-60) (-60)).CPU cfgNeg.CPUThreshold = true
      ∧ F64.lt (snap (-60) (-60) (-60)).CPU (F64.mul F64.half cfgNeg.CPUThreshold) = true
      ∧ F64.lt (snap (-60) (-60) (-60)).Mem (F64.mul F64.half cfgNeg.MemThreshold) = true
      ∧ F64.lt (snap (-60) (-60) (-60)).P95 (F64.mul F64.half cfgNeg.P95Threshold) = true)
    ∧ (decide ⟨3, by decide⟩ (snap (-60) (-60) (-60)) cfgNeg).1.val = 3 + 1
    ∧ (decide ⟨3, by decide⟩ (snap (-60) (-60) (-60)) cfgNeg).2 = "Any(metric)>threshold"
    ∧ (decide ⟨3, by decide⟩ (snap (-60) (-60) (-60)) cfgNeg).1.val ≠ 3 - 1 :=
  have hu : F64.gt (snap (-60) (-60) (-60)).CPU cfgNeg.CPUThreshold = true := by decide
  have hd : F64.lt (snap (-60) (-60) (-60)).CPU (F64.mul F64.half cfgNeg.CPUThreshold) = true
      ∧ F64.lt (snap (-60) (-60) (-60)).Mem (F64.mul F64.half cfgNeg.MemThreshold) = true
      ∧ F64.lt (snap (-60) (-60) (-60)).P95 (F64.mul F64.half cfgNeg.P95Threshold) = true := by
    decide
  ⟨⟨hu, hd⟩,
    decide_up_precedence ⟨3, by decide⟩ (snap (-60) (-60) (-60)) cfgNeg (by decide)
      (Or.inl hu) hd⟩

/-- The call of `decide` in a state of the globals returns what the function of
its arguments returns, and the globals as they were. -/
theorem decideCall_eq (g : State) (replica : GoInt32) (m : MetricsSnapshot) (c : Config) :
    decideCall g replica m c = (decide replica m c, g) := by
  unfold decideCall decide
  dsimp only
  split
  · rfl
  · split <;> rfl

/-- C7: `decide` is pure and time-independent.  Two calls that agree on the
replica count, on the cpu/mem/p95 values and on `MinReplicas`, `MaxReplicas` and
the three thresholds return the same `(target, reason)`, whatever the snapshot
timestamp, namespace, deployment name and cooldown are and whatever the global
replica count, last-scale time and event log are at either call; and each call
leaves these globals as they were. -/
theorem decide_pure (g1 g2 : State) (r1 r2 : GoInt32) (m1 m2 : MetricsSnapshot)
    (c1 c2 : Config)
    (hr : r1 = r2)
    (hcpu : m1.CPU = m2.CPU) (hmem : m1.Mem = m2.Mem) (hp95 : m1.P95 = m2.P95)
    (hmin : c1.MinReplicas = c2.MinReplicas) (hmax : c1.MaxReplicas = c2.MaxReplicas)
    (htc : c1.CPUThreshold = c2.CPUThreshold) (htm : c1.MemThreshold = c2.MemThreshold)
    (htp : c1.P95Threshold = c2.P95Threshold) :
    (decideCall g1 r1 m1 c1).1 = (decideCall g2 r2 m2 c2).1
    ∧ (decideCall g1 r1 m1 c1).2 = g1
    ∧ (decideCall g2 r2 m2 c2).2 = g2
    ∧ decide r1 m1 c1 = decide r2 m2 c2 := by
  have hd : decide r1 m1 c1 = decide r2 m2 c2 := by
    simp only [decide, hr, hcpu, hmem, hp95, hmin, hmax, htc, htm, htp]
  rw [decideCall_eq, decideCall_eq]
  exact ⟨hd, rfl, rfl, hd⟩

/-- Witness of C7: the same replica count, metrics and thresholds under another
timestamp, namespace, deployment name and cooldown, once with 3 replicas, no
last scale and an empty log as globals, once with 7 replicas, a last scale at
instant 99 and one audit entry. -/
theorem decide_pure_witness :
    (decideCall ⟨0, ⟨3, by decide⟩, []⟩ ⟨3, by decide⟩ (snap 600 200 100) cfg0).1
      = (decideCall ⟨99, ⟨7, by decide⟩, [numbered 1]⟩ ⟨3, by decide⟩
          { snap 600 200 100 with At := 77 }
          { cfg0 with Namespace := "other", Deployment := "app2", Cooldown := 5 }).1
    ∧ (decideCall ⟨99, ⟨7, by decide⟩, [numbered 1]⟩ ⟨3, by decide⟩
          { snap 600 200 100 with At := 77 }
          { cfg0 with Namespace := "other", Deployment := "app2", Cooldown := 5 }).2
      = ⟨99, ⟨7, by decide⟩, [numbered 1]⟩ :=
  have h := decide_pure ⟨0, ⟨3, by decide⟩, []⟩ ⟨99, ⟨7, by decide⟩, [numbered 1]⟩
    ⟨3, by decide⟩ ⟨3, by decide⟩ (snap 600 200 100)
    { snap 600 200 100 with At := 77 } cfg0
    { cfg0 with Namespace := "other", Deployment := "app2", Cooldown := 5 }
    rfl rfl rfl rfl rfl rfl rfl rfl rfl
  ⟨h.1, h.2.2.1⟩

/-! ## The reconcile tick: claims -/

/-- C8: cooldown gate.  A reconcile tick proceeds (fetches metrics) if and only if
`now - lastScale >= Cooldown`; for every state and every `now` with
`now - lastScale < Cooldown` the tick is a no-op: no call is made (no metrics
fetched, no actuator call), and `currentReplicas`, `lastScale` and the event log
are exactly as before, whatever the metrics source and the actuator would have
answered. -/
theorem reconcile_cooldown_gate (cfg : Config) (env : TickEnv) (s : State) :
    (Effect.fetchMetrics ∈ (reconcile cfg env s).effects
        ↔ env.sinceNow - s.lastScale ≥ cfg.Cooldown)
    ∧ (env.sinceNow - s.lastScale < cfg.Cooldown →
        reconcile cfg env s = { state := s, effects := [] }) := by
  constructor
  · by_cases h : env.sinceNow - s.lastScale < cfg.Cooldown
    · have hn : ¬ env.sinceNow - s.lastScale ≥ cfg.Cooldown := not_le.mpr h
      simp [reconcile, h, hn]
    · have hp : env.sinceNow - s.lastScale ≥ cfg.Cooldown := not_lt.mp h
      simp only [reconcile, if_neg h, hp, iff_true]
      split
      · split <;> simp
      · simp
  · intro h
    simp [reconcile, h]

/-- Witness of C8: last scale at instant 100, clock at 130, cooldown 60s. -/
theorem reconcile_cooldown_gate_witness :
    (130 : Int) - 100 < cfg0.Cooldown
    ∧ reconcile cfg0 (env0 130 (snap 600 200 100) none) ⟨100, ⟨3, by decide⟩, []⟩
        = { state := ⟨100, ⟨3, by decide⟩, []⟩, effects := [] } :=
  ⟨by decide,
    (reconcile_cooldown_gate cfg0 (env0 130 (snap 600 200 100) none)
      ⟨100, ⟨3, by decide⟩, []⟩).2 (by decide)⟩

/-- C9, evaluated on the code: state `currentReplicas = 3`, empty log, cooldown
passed, metrics (600,200,100) under thresholds 500/512/400 and a succeeding
actuator.  `decide` returns `(4, "Any(metric)>threshold")`; after the tick
`currentReplicas = 4`, `lastScale` is the clock reading taken after the
actuator call, and one `Decision` with action `"scale"`, `To = 4` and the reason
of `decide` is appended, but its `From` is `4`, the replica count after the
update, not `3`, the count before the tick. -/
theorem reconcile_scale_from_is_target :
    (decide ⟨3, by decide⟩ (snap 600 200 100) cfg0).1.val = 4
    ∧ (reconcile cfg0 (env0 100000000000 (snap 600 200 100) none)
        ⟨0, ⟨3, by decide⟩, []⟩).state
      = { lastScale := 100000000001, currentReplicas := ⟨4, by decide⟩,
          events := [{ Time := 100000000002, Action := "scale", From := ⟨4, by decide⟩,
                       To := ⟨4, by decide⟩, Reason := "Any(metric)>threshold",
                       Threshold := "CPU>,Mem>,P95>" }] }
    ∧ ((reconcile cfg0 (env0 100000000000 (snap 600 200 100) none)
        ⟨0, ⟨3, by decide⟩, []⟩).state.events.map (fun d => d.From.val)) ≠ [3] := by
  refine ⟨by decide, by decide, by decide⟩

/-- C10: actuation failure is atomic.  For every state that passes the cooldown
gate and every metrics snapshot for which `decide` returns a target different
from `currentReplicas`, if the actuator call returns an error then after the
tick `currentReplicas`, `lastScale` and the event log are exactly what they were
(no `Decision` is recorded); the tick made one actuator call and logged the
error, and a following tick behaves as it would have on the state before. -/
theorem reconcile_actuation_failure_atomic (cfg : Config) (env : TickEnv) (s : State)
    (err : String)
    (hgate : env.sinceNow - s.lastScale ≥ cfg.Cooldown)
    (hne : (decide s.currentReplicas env.metrics cfg).1 ≠ s.currentReplicas)
    (herr : env.scaleErr (decide s.currentReplicas env.metrics cfg).1 = some err) :
    (reconcile cfg env s).state = s
    ∧ (reconcile cfg env s).effects
        = [.fetchMetrics, .scaleTo (decide s.currentReplicas env.metrics cfg).1,
            .logPrintf ("scale error: " ++ err)]
    ∧ ∀ env2 : TickEnv, reconcile cfg env2 (reconcile cfg env s).state
        = reconcile cfg env2 s := by
  have hg : ¬ env.sinceNow - s.lastScale < cfg.Cooldown := not_lt.mpr hgate
  have hst : (reconcile cfg env s).state = s := by
    simp only [reconcile, if_neg hg, hne, ne_eq, not_false_eq_true, if_true, herr]
  refine ⟨hst, ?_, ?_⟩
  · simp only [reconcile, if_neg hg, hne, ne_eq, not_false_eq_true, if_true, herr]
  · intro env2
    rw [hst]

/-- Witness of C10: `currentReplicas = 3`, cooldown passed, metrics (600,200,100)
and an actuator that answers `"conflict"`: the state is unchanged. -/
theorem reconcile_actuation_failure_atomic_witness :
    (100000000000 : Int) - 0 ≥ cfg0.Cooldown
    ∧ (decide ⟨3, by decide⟩ (snap 600 200 100) cfg0).1 ≠ ⟨3, by decide⟩
    ∧ (reconcile cfg0 (env0 100000000000 (snap 600 200 100) (some "conflict"))
        ⟨0, ⟨3, by decide⟩, []⟩).state = ⟨0, ⟨3, by decide⟩, []⟩ :=
  ⟨by decide, by decide,
    (reconcile_actuation_failure_atomic cfg0
      (env0 100000000000 (snap 600 200 100) (some "conflict")) ⟨0, ⟨3, by decide⟩, []⟩
      "conflict" (by decide) (by decide) rfl).1⟩

/-! ## The reconcile tick and the audit log: further claims -/

/-- C11: hold tick.  For every state that passes the cooldown gate and every
metrics snapshot for which `decide` returns the current replica count, the tick
makes no actuator call, leaves `currentReplicas` and `lastScale` unchanged (a
hold does not restart the cooldown), and records exactly one `Decision`, with
action `"hold"`, `From = To = currentReplicas` and reason `"Hold"`; below the
capacity of the log this is the old log followed by that entry. -/
theorem reconcile_hold_tick (cfg : Config) (env : TickEnv) (s : State)
    (hgate : env.sinceNow - s.lastScale ≥ cfg.Cooldown)
    (heq : (decide s.currentReplicas env.metrics cfg).1 = s.currentReplicas) :
    (reconcile cfg env s).effects = [.fetchMetrics]
    ∧ actuatorCalls (reconcile cfg env s).effects = 0
    ∧ (reconcile cfg env s).state.currentReplicas = s.currentReplicas
    ∧ (reconcile cfg env s).state.lastScale = s.lastScale
    ∧ (reconcile cfg env s).state.events = appendEvent s.events
        { Time := env.eventNow, Action := "hold", From := s.currentReplicas,
          To := s.currentReplicas, Reason := "Hold",
          Threshold := thresholdsString env.formatFloat cfg }
    ∧ (s.events.length < 500 →
        (reconcile cfg env s).state.events = s.events ++
          [{ Time := env.eventNow, Action := "hold", From := s.currentReplicas,
             To := s.currentReplicas, Reason := "Hold",
             Threshold := thresholdsString env.formatFloat cfg }]) := by
  have hg : ¬ env.sinceNow - s.lastScale < cfg.Cooldown := not_lt.mpr hgate
  have hwhy := decide_reason_of_target_eq s.currentReplicas env.metrics cfg heq
  rw [reconcile_hold cfg env s hg heq, heq, hwhy]
  refine ⟨rfl, rfl, rfl, rfl, rfl, ?_⟩
  intro hlen
  exact appendEvent_of_lt _ _ hlen

/-- Witness of C11: `currentReplicas = 3`, cooldown passed, metrics (250,256,120)
inside the hysteresis band: one hold entry is recorded and nothing else changes. -/
theorem reconcile_hold_tick_witness :
    (100000000000 : Int) - 0 ≥ cfg0.Cooldown
    ∧ (reconcile cfg0 (env0 100000000000 (snap 250 256 120) none)
        ⟨0, ⟨3, by decide⟩, []⟩).effects = [.fetchMetrics]
    ∧ (reconcile cfg0 (env0 100000000000 (snap 250 256 120) none)
        ⟨0, ⟨3, by decide⟩, []⟩).state.lastScale = 0 :=
  have heq : (decide ⟨3, by decide⟩ (snap 250 256 120) cfg0).1 = ⟨3, by decide⟩ := by
    decide
  have h := reconcile_hold_tick cfg0 (env0 100000000000 (snap 250 256 120) none)
    ⟨0, ⟨3, by decide⟩, []⟩ (by decide) heq
  ⟨by decide, h.1, h.2.2.2.1⟩

/-- C12: audit bound and FIFO eviction.  Starting from an event log of length
`<= 500`, after any sequence `ds` of recorded `Decision`s the log is the last
`min(500, old length + N)` elements of `old log ++ ds`, in their order; after
more than 500 of them its length is exactly 500 and it holds the 500 most recent
ones, oldest first; its length never exceeds 500; and a reconcile tick either
leaves the log as it is or records one `Decision` in this way, so the length
does not exceed 500 after any tick. -/
theorem audit_log_bound (log ds : List Decision) (h : log.length ≤ 500) :
    ds.foldl appendEvent log
        = (log ++ ds).drop ((log ++ ds).length - min 500 (log.length + ds.length))
    ∧ (ds.length > 500 →
        (ds.foldl appendEvent log).length = 500
          ∧ ds.foldl appendEvent log = ds.drop (ds.length - 500))
    ∧ (ds.foldl appendEvent log).length ≤ 500
    ∧ (∀ (cfg : Config) (env : TickEnv) (s : State), s.events = log →
        ((reconcile cfg env s).state.events = log
          ∨ ∃ d, (reconcile cfg env s).state.events = appendEvent log d)
        ∧ (reconcile cfg env s).state.events.length ≤ 500) := by
  have hf := foldl_appendEvent log ds h
  have hlen : (log ++ ds).length = log.length + ds.length := List.length_append log ds
  refine ⟨?_, ?_, ?_, ?_⟩
  · rw [hf, hlen]
    have hm : log.length + ds.length - min 500 (log.length + ds.length)
        = log.length + ds.length - 500 := by omega
    rw [hm]
  · intro hN
    constructor
    · rw [hf, List.length_drop, hlen]
      omega
    · rw [hf, hlen]
      have hk : log.length + ds.length - 500 = log.length + (ds.length - 500) := by omega
      rw [hk, List.drop_append]
  · rw [hf, List.length_drop, hlen]
    omega
  · intro cfg env s hs
    by_cases hg : env.sinceNow - s.lastScale < cfg.Cooldown
    · rw [reconcile_blocked cfg env s hg]
      exact ⟨Or.inl hs, by rw [hs]; exact h⟩
    · by_cases heq : (decide s.currentReplicas env.metrics cfg).1 = s.currentReplicas
      · rw [reconcile_hold cfg env s hg heq, ← hs]
        exact ⟨Or.inr ⟨_, rfl⟩, appendEvent_length_le _ _⟩
      · cases herr : env.scaleErr (decide s.currentReplicas env.metrics cfg).1 with
        | none =>
          rw [reconcile_scale_ok cfg env s hg heq herr, ← hs]
          exact ⟨Or.inr ⟨_, rfl⟩, appendEvent_length_le _ _⟩
        | some err =>
          rw [reconcile_scale_err cfg env s err hg heq herr]
          exact ⟨Or.inl hs, by rw [hs]; exact h⟩

/-- Witness of C12: the log holds the 500 entries number 0 to 499, at capacity,
and 501 more entries, number 500 to 1000, are recorded.  The log then has
exactly 500 entries: every old entry and the oldest new one, number 500, have
been evicted, and the entries number 501 to 1000 remain in their order. -/
theorem audit_log_bound_witness :
    (numberedFrom 0 500).length ≤ 500
    ∧ (numberedFrom 500 501).length > 500
    ∧ ((numberedFrom 500 501).foldl appendEvent (numberedFrom 0 500)).length = 500
    ∧ (numberedFrom 500 501).foldl appendEvent (numberedFrom 0 500) = numberedFrom 501 500 :=
  have h := (audit_log_bound (numberedFrom 0 500) (numberedFrom 500 501) (by decide)).2.1
    (by decide)
  ⟨by decide, by decide, h.1, h.2.trans (by decide)⟩

/-- C13, as stated, fails: with `MinReplicas = 1 <= MaxReplicas = 10`, a live
replica count of 20 read at startup becomes `currentReplicas` as it is, outside
the band, and a reconcile tick (cooldown passed, metrics (600,200,100)) leaves
it at 20. -/
theorem band_invariant_fails_at_startup :
    cfg0.MinReplicas.val ≤ cfg0.MaxReplicas.val
    ∧ (startup cfg0 (.ok (some ⟨20, by decide⟩))).currentReplicas.val = 20
    ∧ ¬ inBand cfg0 (startup cfg0 (.ok (some ⟨20, by decide⟩)))
    ∧ ¬ inBand cfg0 (runTicks cfg0 [env0 100000000000 (snap 600 200 100) none]
          (startup cfg0 (.ok (some ⟨20, by decide⟩)))) := by
  refine ⟨by decide, rfl, ?_, ?_⟩
  · intro h
    exact absurd h.2 (by decide)
  · intro h
    have h2 := h.2
    have hd : (decide ⟨20, by decide⟩ (snap 600 200 100) cfg0).1 = ⟨20, by decide⟩ := by
      decide
    have hg : ¬ (env0 100000000000 (snap 600 200 100) none).sinceNow
        - (startup cfg0 (.ok (some ⟨20, by decide⟩))).lastScale < cfg0.Cooldown := by decide
    simp only [runTicks, List.foldl_cons, List.foldl_nil] at h2
    rw [reconcile_hold cfg0 _ _ hg hd] at h2
    exact absurd h2 (by decide)

/-- C13, amended: for every config with `MinReplicas <= MaxReplicas`, if the live
replica count read at startup lies in `[MinReplicas, MaxReplicas]` (nothing is
asked when it cannot be read and `MinReplicas` is taken), then in every state
reached from the startup state by any sequence of reconcile ticks, with any
metrics and any actuator outcomes, `MinReplicas <= currentReplicas <=
MaxReplicas`. -/
theorem band_invariant (cfg : Config) (dep : Except String (Option GoInt32))
    (envs : List TickEnv)
    (hcfg : cfg.MinReplicas.val ≤ cfg.MaxReplicas.val)
    (hlive : ∀ n, dep = .ok (some n) →
      cfg.MinReplicas.val ≤ n.val ∧ n.val ≤ cfg.MaxReplicas.val) :
    inBand cfg (runTicks cfg envs (startup cfg dep)) := by
  apply runTicks_preserves_band
  unfold inBand
  cases dep with
  | error e => exact ⟨le_refl _, hcfg⟩
  | ok o =>
    cases o with
    | none => exact ⟨le_refl _, hcfg⟩
    | some n => exact hlive n rfl

/-- Witness of the amended C13: live count 3 in the band 1..10, then a tick that
scales up and a tick stopped by the cooldown. -/
theorem band_invariant_witness :
    cfg0.MinReplicas.val ≤ cfg0.MaxReplicas.val
    ∧ inBand cfg0 (runTicks cfg0
        [env0 100000000000 (snap 600 200 100) none,
         env0 105000000000 (snap 600 200 100) none]
        (startup cfg0 (.ok (some ⟨3, by decide⟩)))) :=
  ⟨by decide,
    band_invariant cfg0 (.ok (some ⟨3, by decide⟩))
      [env0 100000000000 (snap 600 200 100) none,
       env0 105000000000 (snap 600 200 100) none]
      (by decide)
      (fun n h => by
        have hn : (⟨3, by decide⟩ : GoInt32) = n := Option.some.inj (Except.ok.inj h)
        rw [← hn]
        decide)⟩

/-- C14, as stated, fails: cooldown 60s, last scale long ago, `currentReplicas = 3`,
metrics (600,200,100) and an actuator that fails both times.  Two ticks one
second apart both pass the gate and both call the actuator: two actuator calls. -/
theorem cooldown_two_actuator_calls :
    (env0 101000000000 (snap 600 200 100) (some "conflict")).sinceNow
        - (env0 100000000000 (snap 600 200 100) (some "conflict")).sinceNow < cfg0.Cooldown
    ∧ actuatorCalls
        ((reconcile cfg0 (env0 100000000000 (snap 600 200 100) (some "conflict"))
            ⟨0, ⟨3, by decide⟩, []⟩).effects
          ++ (reconcile cfg0 (env0 101000000000 (snap 600 200 100) (some "conflict"))
              (reconcile cfg0 (env0 100000000000 (snap 600 200 100) (some "conflict"))
                ⟨0, ⟨3, by decide⟩, []⟩).state).effects) = 2 := by
  refine ⟨by decide, by decide⟩

/-- C14, amended: for every starting state, every pair of metrics snapshots and
every pair of actuator outcomes, two consecutive reconcile invocations whose
times (the clock readings of their gates) differ by less than `Cooldown`, the
clock not running backwards during the first, together make at most one
successful actuator call (each makes at most one call) and add at most one
`Decision` with action `"scale"`; after a successful call of the first, the
second makes no call at all. -/
theorem cooldown_limits_successful_actuation (cfg : Config) (env1 env2 : TickEnv)
    (s : State)
    (hclock : env1.sinceNow ≤ env1.scaleNow)
    (hclose : env2.sinceNow - env1.sinceNow < cfg.Cooldown) :
    successfulCalls env1 (reconcile cfg env1 s).effects
        + successfulCalls env2 (reconcile cfg env2 (reconcile cfg env1 s).state).effects ≤ 1
    ∧ actuatorCalls (reconcile cfg env1 s).effects ≤ 1
    ∧ actuatorCalls (reconcile cfg env2 (reconcile cfg env1 s).state).effects ≤ 1
    ∧ (successfulCalls env1 (reconcile cfg env1 s).effects = 1 →
        (reconcile cfg env2 (reconcile cfg env1 s).state).effects = [])
    ∧ scaleCount (reconcile cfg env2 (reconcile cfg env1 s).state).state.events
        ≤ scaleCount s.events + 1 := by
  have hblock : successfulCalls env1 (reconcile cfg env1 s).effects = 1 →
      reconcile cfg env2 (reconcile cfg env1 s).state
        = { state := (reconcile cfg env1 s).state, effects := [] } := by
    intro ha
    rcases reconcile_tick_cases cfg env1 s with ⟨-, hls, -⟩ | ⟨hna, -⟩
    · apply reconcile_blocked
      rw [hls]
      have h1 : env2.sinceNow - env1.scaleNow ≤ env2.sinceNow - env1.sinceNow :=
        Int.sub_le_sub_left hclock _
      exact lt_of_le_of_lt h1 hclose
    · omega
  refine ⟨?_, reconcile_actuatorCalls_le cfg env1 s, reconcile_actuatorCalls_le cfg env2 _,
    ?_, ?_⟩
  · rcases reconcile_tick_cases cfg env1 s with ⟨ha, -, -⟩ | ⟨hna, -⟩
    · rw [hblock ha, ha]
      exact Nat.le_refl 1
    · rcases reconcile_tick_cases cfg env2 (reconcile cfg env1 s).state with
        ⟨h2, -, -⟩ | ⟨h2, -⟩
      · omega
      · omega
  · intro ha
    rw [hblock ha]
  · rcases reconcile_tick_cases cfg env1 s with ⟨ha, -, hc⟩ | ⟨-, hc⟩
    · rw [hblock ha]
      exact hc
    · rcases reconcile_tick_cases cfg env2 (reconcile cfg env1 s).state with
        ⟨-, -, hc2⟩ | ⟨-, hc2⟩
      · omega
      · omega

/-- Witness of the amended C14: two ticks one second apart under cooldown 60s,
metrics (600,200,100) and a succeeding actuator: the first makes the one
successful call, the second makes no call. -/
theorem cooldown_limits_successful_actuation_witness :
    (env0 100000000000 (snap 600 200 100) none).sinceNow
        ≤ (env0 100000000000 (snap 600 200 100) none).scaleNow
    ∧ (env0 101000000000 (snap 600 200 100) none).sinceNow
        - (env0 100000000000 (snap 600 200 100) none).sinceNow < cfg0.Cooldown
    ∧ successfulCalls (env0 100000000000 (snap 600 200 100) none)
        (reconcile cfg0 (env0 100000000000 (snap 600 200 100) none)
          ⟨0, ⟨3, by decide⟩, []⟩).effects = 1
    ∧ successfulCalls (env0 100000000000 (snap 600 200 100) none)
          (reconcile cfg0 (env0 100000000000 (snap 600 200 100) none)
            ⟨0, ⟨3, by decide⟩, []⟩).effects
        + successfulCalls (env0 101000000000 (snap 600 200 100) none)
          (reconcile cfg0 (env0 101000000000 (snap 600 200 100) none)
            (reconcile cfg0 (env0 100000000000 (snap 600 200 100) none)
              ⟨0, ⟨3, by decide⟩, []⟩).state).effects ≤ 1 :=
  ⟨by decide, by decide, by decide,
    (cooldown_limits_successful_actuation cfg0
      (env0 100000000000 (snap 600 200 100) none)
      (env0 101000000000 (snap 600 200 100) none)
      ⟨0, ⟨3, by decide⟩, []⟩ (by decide) (by decide)).1⟩

/-- C15, as stated, fails: cooldown 60s, last scale long ago, `currentReplicas = 3`
and the metrics (250,256,120) that `fetchMetrics` returns by default.  The first
tick holds, which does not renew `lastScale`; the second tick, one second
later, passes the gate as well, fetches metrics and records a second audit
entry: it is not a no-op. -/
theorem second_tick_in_window_not_noop :
    (env0 101000000000 (snap 250 256 120) none).sinceNow
        - (env0 100000000000 (snap 250 256 120) none).sinceNow < cfg0.Cooldown
    ∧ (reconcile cfg0 (env0 100000000000 (snap 250 256 120) none)
        ⟨0, ⟨3, by decide⟩, []⟩).state.events.length = 1
    ∧ (reconcile cfg0 (env0 101000000000 (snap 250 256 120) none)
        (reconcile cfg0 (env0 100000000000 (snap 250 256 120) none)
          ⟨0, ⟨3, by decide⟩, []⟩).state).effects = [.fetchMetrics]
    ∧ (reconcile cfg0 (env0 101000000000 (snap 250 256 120) none)
        (reconcile cfg0 (env0 100000000000 (snap 250 256 120) none)
          ⟨0, ⟨3, by decide⟩, []⟩).state).state.events.length = 2
    ∧ (reconcile cfg0 (env0 101000000000 (snap 250 256 120) none)
        (reconcile cfg0 (env0 100000000000 (snap 250 256 120) none)
          ⟨0, ⟨3, by decide⟩, []⟩).state).state
        ≠ (reconcile cfg0 (env0 100000000000 (snap 250 256 120) none)
          ⟨0, ⟨3, by decide⟩, []⟩).state := by
  rw [reconcile_cfg0_hold]
  have hg : ¬ (env0 101000000000 (snap 250 256 120) none).sinceNow
      - (0 : GoTime) < cfg0.Cooldown := by decide
  have hd : (decide ⟨3, by decide⟩ (env0 101000000000 (snap 250 256 120) none).metrics
      cfg0).1 = ⟨3, by decide⟩ := by
    show (decide ⟨3, by decide⟩ (snap 250 256 120) cfg0).1 = ⟨3, by decide⟩
    rw [decide_cfg0_hold]
  rw [reconcile_hold cfg0 _ _ hg hd]
  refine ⟨by decide, rfl, rfl, rfl, ?_⟩
  intro h
  have hl := congrArg (fun st : State => st.events.length) h
  exact absurd hl (by decide)

/-- C15, amended: for every starting state and every metrics, when the first of
two reconcile ticks passes the gate and scales with a succeeding actuator call,
and the second runs less than `Cooldown` after it (1 second apart with
`Cooldown = 60s`, say; the clock not running backwards during the first), the
second tick is a no-op: it makes no call, changes nothing and appends no audit
entry of any kind. -/
theorem second_tick_after_scale_is_noop (cfg : Config) (env1 env2 : TickEnv) (s : State)
    (hgate : env1.sinceNow - s.lastScale ≥ cfg.Cooldown)
    (hne : (decide s.currentReplicas env1.metrics cfg).1 ≠ s.currentReplicas)
    (hok : env1.scaleErr (decide s.currentReplicas env1.metrics cfg).1 = none)
    (hclock : env1.sinceNow ≤ env1.scaleNow)
    (hclose : env2.sinceNow - env1.sinceNow < cfg.Cooldown) :
    reconcile cfg env2 (reconcile cfg env1 s).state
      = { state := (reconcile cfg env1 s).state, effects := [] } := by
  have hg : ¬ env1.sinceNow - s.lastScale < cfg.Cooldown := not_lt.mpr hgate
  apply reconcile_blocked
  rw [reconcile_scale_ok cfg env1 s hg hne hok]
  have h1 : env2.sinceNow - env1.scaleNow ≤ env2.sinceNow - env1.sinceNow :=
    Int.sub_le_sub_left hclock _
  exact lt_of_le_of_lt h1 hclose

/-- Witness of the amended C15: cooldown 60s, the first tick at 100s scales from 3
to 4, the second tick at 101s does nothing. -/
theorem second_tick_after_scale_is_noop_witness :
    (env0 101000000000 (snap 600 200 100) none).sinceNow
        - (env0 100000000000 (snap 600 200 100) none).sinceNow = 1000000000
    ∧ cfg0.Cooldown = 60000000000
    ∧ reconcile cfg0 (env0 101000000000 (snap 600 200 100) none)
        (reconcile cfg0 (env0 100000000000 (snap 600 200 100) none)
          ⟨0, ⟨3, by decide⟩, []⟩).state
      = { state := (reconcile cfg0 (env0 100000000000 (snap 600 200 100) none)
            ⟨0, ⟨3, by decide⟩, []⟩).state, effects := [] } :=
  ⟨by decide, rfl,
    second_tick_after_scale_is_noop cfg0 (env0 100000000000 (snap 600 200 100) none)
      (env0 101000000000 (snap 600 200 100) none) ⟨0, ⟨3, by decide⟩, []⟩
      (by decide) (by decide) rfl (by decide) (by decide)⟩

/-! ## The predictor: claims -/

/-- C19: hysteresis prevents reversal.  For every config whose three thresholds are
`> 0`, no metrics snapshot satisfies both the scale-up and the scale-down metric
condition; hence for fixed metrics `m` and every replica count `r`, if
`decide(r, m)` returns `r+1` then `decide(r+1, m)` does not return `r`, and if
`decide(r, m)` returns `r-1` then `decide(r-1, m)` does not return `r`. -/
theorem hysteresis_no_reversal (r : GoInt32) (m : MetricsSnapshot) (c : Config)
    (hcpu : F64.gt c.CPUThreshold F64.zero = true)
    (hmem : F64.gt c.MemThreshold F64.zero = true)
    (hp95 : F64.gt c.P95Threshold F64.zero = true) :
    ¬ ((F64.gt m.CPU c.CPUThreshold = true ∨ F64.gt m.Mem c.MemThreshold = true
          ∨ F64.gt m.P95 c.P95Threshold = true)
        ∧ (F64.lt m.CPU (F64.mul F64.half c.CPUThreshold) = true
          ∧ F64.lt m.Mem (F64.mul F64.half c.MemThreshold) = true
          ∧ F64.lt m.P95 (F64.mul F64.half c.P95Threshold) = true))
    ∧ ((decide r m c).1.val = r.val + 1 → (decide (decide r m c).1 m c).1 ≠ r)
    ∧ ((decide r m c).1.val = r.val - 1 → (decide (decide r m c).1 m c).1 ≠ r) := by
  have hex : upCond m c = true → downCond m c = true → False := by
    intro hu hd
    rw [not_up_and_down m c hcpu hmem hp95 hu] at hd
    exact absurd hd (by decide)
  refine ⟨?_, ?_, ?_⟩
  · rintro ⟨hu, hd⟩
    apply hex
    · simp only [upCond, Bool.or_eq_true]
      tauto
    · simp only [downCond, Bool.and_eq_true, F64.mul_comm _ F64.half]
      tauto
  · intro h1 h2
    have hv := congrArg Subtype.val h2
    rcases decide_val_cases r m c with ⟨hu, -, -⟩ | ⟨-, -, -, hr⟩ | ⟨-, -, hr⟩
    · rcases decide_val_cases (decide r m c).1 m c with ⟨-, -, hs⟩ | ⟨hd, -, -, -⟩ | ⟨-, -, hs⟩
      · omega
      · exact hex hu hd
      · rw [hs] at hv
        omega
    · omega
    · rw [hr] at h1
      omega
  · intro h1 h2
    have hv := congrArg Subtype.val h2
    rcases decide_val_cases r m c with ⟨-, -, hr⟩ | ⟨hd, -, -, -⟩ | ⟨-, -, hr⟩
    · omega
    · rcases decide_val_cases (decide r m c).1 m c with ⟨hu, -, -⟩ | ⟨-, -, -, hs⟩ | ⟨-, -, hs⟩
      · exact hex hu hd
      · omega
      · rw [hs] at hv
        omega
    · rw [hr] at h1
      omega

/-- Witness of C19: thresholds 500/512/400, metrics (600,200,100): from 3 the rule
moves to 4, and from 4 it does not come back to 3. -/
theorem hysteresis_no_reversal_witness :
    (decide ⟨3, by decide⟩ (snap 600 200 100) cfg0).1.val = 3 + 1
    ∧ (decide (decide ⟨3, by decide⟩ (snap 600 200 100) cfg0).1 (snap 600 200 100) cfg0).1
        ≠ ⟨3, by decide⟩ :=
  ⟨by decide,
    (hysteresis_no_reversal ⟨3, by decide⟩ (snap 600 200 100) cfg0
      (by decide) (by decide) (by decide)).2.1 (by decide)⟩

/-! ## Monotonicity: claim -/

/-- C20: the answer of the predictor is monotone in the load.  For every config,
every `current` and every `rps1 <= rps2`, each of the three synthesized metrics
at `rps1` is `<=` the one at `rps2`, and the target of
`decide(current, synthesizeMetrics(rps1), cfg)` is `<=` the target of
`decide(current, synthesizeMetrics(rps2), cfg)`. -/
theorem predictor_monotone (c : Config) (current : GoInt32) (rps1 rps2 : F64)
    (now1 now2 : GoTime) (h : F64.le rps1 rps2 = true) :
    F64.le (synthesizeMetrics rps1 now1).CPU (synthesizeMetrics rps2 now2).CPU = true
    ∧ F64.le (synthesizeMetrics rps1 now1).Mem (synthesizeMetrics rps2 now2).Mem = true
    ∧ F64.le (synthesizeMetrics rps1 now1).P95 (synthesizeMetrics rps2 now2).P95 = true
    ∧ (decide current (synthesizeMetrics rps1 now1) c).1.val
        ≤ (decide current (synthesizeMetrics rps2 now2) c).1.val := by
  obtain ⟨hcpu, hmem, hp95⟩ := synthesizeMetrics_mono rps1 rps2 now1 now2 h
  refine ⟨hcpu, hmem, hp95, ?_⟩
  have hup := upCond_mono _ _ c hcpu hmem hp95
  have hdown := downCond_anti _ _ c hcpu hmem hp95
  rcases decide_val_cases current (synthesizeMetrics rps1 now1) c with
    ⟨hu, hlt, h1⟩ | ⟨-, -, -, h1⟩ | ⟨-, hnd, h1⟩
  · rcases decide_val_cases current (synthesizeMetrics rps2 now2) c with
      ⟨-, -, h2⟩ | ⟨-, -, hn, -⟩ | ⟨hn, -, -⟩
    · omega
    · exact absurd ⟨hup hu, hlt⟩ hn
    · exact absurd ⟨hup hu, hlt⟩ hn
  · rcases decide_val_cases current (synthesizeMetrics rps2 now2) c with
      ⟨-, -, h2⟩ | ⟨-, -, -, h2⟩ | ⟨-, -, h2⟩
    · omega
    · omega
    · rw [h2]
      omega
  · rw [h1]
    rcases decide_val_cases current (synthesizeMetrics rps2 now2) c with
      ⟨-, -, h2⟩ | ⟨hd, hgt, -, -⟩ | ⟨-, -, h2⟩
    · omega
    · exact absurd ⟨hdown hd, hgt⟩ hnd
    · rw [h2]

/-- Witness of C20: loads 100 and 300 under thresholds 500/512/400 at 3 replicas:
the target for 100 is at most the target for 300. -/
theorem predictor_monotone_witness :
    F64.le (F64.ofInt 100) (F64.ofInt 300) = true
    ∧ (decide ⟨3, by decide⟩ (synthesizeMetrics (F64.ofInt 100) 0) cfg0).1.val
        ≤ (decide ⟨3, by decide⟩ (synthesizeMetrics (F64.ofInt 300) 0) cfg0).1.val :=
  ⟨by decide,
    (predictor_monotone cfg0 ⟨3, by decide⟩ (F64.ofInt 100) (F64.ofInt 300) 0 0 (by decide)).2.2.2⟩

/-! ## The lock discipline: claim -/

/-- C18, evaluated on the code: every access of `reconcile` to `lastScale`,
`currentReplicas` and `events` is made while holding `mu`, on every path; but
the `/events` handler reads `events`, and the `/predict` handler reads
`currentReplicas`, without ever taking `mu`. -/
theorem handlers_read_without_lock :
    (∀ (cfg : Config) (env : TickEnv) (s : State),
      guarded (reconcileAccess cfg env s) = true)
    ∧ guarded eventsHandlerAccess = false
    ∧ (∀ rps : F64, guarded (predictHandlerAccess (some rps)) = false) := by
  refine ⟨?_, rfl, fun _ => rfl⟩
  intro cfg env s
  have htail : guardedFrom true (appendEventAccess s.events ++ [.unlock]) = true := by
    unfold appendEventAccess
    split <;> rfl
  unfold guarded reconcileAccess
  split
  · rfl
  · simp only []
    split
    · split
      · rfl
      · simpa [guardedFrom] using htail
    · simpa [guardedFrom] using htail

end Autoscaler
